import Mathlib

/-!
# GridView live race prediction core: a shallow embedding

This file embeds the prediction-engine functions of the GridView design
(`position_baseline`, `pace_adjustment`, `strategy_projection`,
`safety_car_adjustment`, `confidence_interval`, `compute_win_probability`,
`estimate_remaining_stops`) and the `.z`-payload decompression pipeline,
and proves the specification's testable properties about them.

Python floats are modelled as `ℚ` (all constants in the source are exact
decimals), Python ints as `ℤ`, fallible code (list indexing that can raise
`IndexError`) as `Option`.
-/

namespace GridView

/-- The per-driver state fields read by the prediction model.  Mirrors the
`DriverState` class of the source, restricted to the fields the model
components actually access (`rolling_pace_5lap` is the derived 5-lap rolling
average attached to the state). -/
structure DriverState where
  driver_id : String
  position : ℤ
  gap_to_leader : ℚ
  rolling_pace_5lap : ℚ
  tire_compound : String
  tire_age_laps : ℤ
deriving Repr, DecidableEq

/-- The race-level state fields read by the prediction model, mirroring the
source's `RaceState` (`flag_status` is one of GREEN, YELLOW, RED, SC, VSC). -/
structure RaceState where
  current_lap : ℤ
  total_laps : ℤ
  race_progress : ℚ
  flag_status : String
deriving Repr, DecidableEq

/-- Per-circuit configuration consumed read-only by the engine. -/
structure TrackConfig where
  overtake_difficulty : ℚ
  pit_time_loss : ℚ
deriving Repr, DecidableEq

/-- The result record built by `compute_win_probability`.  `key_factors`
models the Python list literal, whose entries are `None` (here `none`) when a
factor is suppressed. -/
structure PredictionResult where
  driver_id : String
  win_probability : ℚ
  confidence_interval : ℚ × ℚ
  key_factors : List (Option String)
deriving Repr, DecidableEq

/-- Python list indexing `xs[i]`: non-negative indices from the front,
negative indices from the back, `none` for an out-of-range access
(`IndexError`). -/
def pyIndex (xs : List ℚ) (i : ℤ) : Option ℚ :=
  if 0 ≤ i then xs.get? i.toNat
  else if 0 ≤ i + (xs.length : ℤ) then xs.get? (i + (xs.length : ℤ)).toNat
  else none

/-- Component 1 of the ensemble: baseline win probability from track
position.  Selects a weight table by laps-remaining bucket, pads it with a
tail weight up to the field size, and indexes it by `position - 1`; positions
beyond the table length receive the fixed minimal weight 0.001. -/
def position_baseline (position laps_remaining : ℤ) (total_drivers : ℕ) : Option ℚ :=
  let weights : List ℚ :=
    if 20 < laps_remaining then
      [65/100, 18/100, 8/100, 4/100, 2/100] ++ List.replicate (total_drivers - 5) (1/100)
    else if 10 < laps_remaining then
      [75/100, 14/100, 6/100, 3/100, 1/100] ++ List.replicate (total_drivers - 5) (5/1000)
    else
      [85/100, 10/100, 3/100, 15/1000, 5/1000] ++ List.replicate (total_drivers - 5) (1/1000)
  if position ≤ (weights.length : ℤ) then pyIndex weights (position - 1)
  else some (1/1000)

/-- The guarded laps-to-catch computation of `pace_adjustment`:
`gap_to_leader / pace_delta` is evaluated only when `pace_delta > 0`;
otherwise the source uses `float('inf')`, modelled as `none`. -/
def laps_to_catch_opt (gap_to_leader pace_delta : ℚ) : Option ℚ :=
  if 0 < pace_delta then some (gap_to_leader / pace_delta) else none

/-- Component 2 of the ensemble: pace-differential adjustment.  A pace
advantage over the leader earns a positive adjustment — scaled by the
overtake factor when the gap is closable within 90% of the remaining laps,
a small fixed residual otherwise; a deficit worse than 0.3 s/lap earns the
fixed −0.10. -/
def pace_adjustment (driver leader : DriverState) (gap_to_leader : ℚ)
    (laps_remaining : ℤ) (track_difficulty : ℚ) : ℚ :=
  let pace_delta := leader.rolling_pace_5lap - driver.rolling_pace_5lap
  let can_catch : Bool :=
    match laps_to_catch_opt gap_to_leader pace_delta with
    | some l => decide (l < (laps_remaining : ℚ) * (9/10))
    | none => false
  let overtake_factor := 1 - track_difficulty * (1/2)
  if 1/2 < pace_delta then
    (if can_catch then 15/100 * overtake_factor else 2/100)
  else if 1/5 < pace_delta then
    (if can_catch then 8/100 * overtake_factor else 1/100)
  else if pace_delta < -(3/10) then -(1/10)
  else 0

/-- The `tire_life` dictionary lookup with default stint length 25. -/
def tire_life_lookup (compound : String) : ℤ :=
  if compound = "SOFT" then 15
  else if compound = "MEDIUM" then 25
  else if compound = "HARD" then 35
  else if compound = "PRIMARY" then 30
  else if compound = "ALTERNATE" then 35
  else 25

/-- Estimate of how many more pit stops a driver needs.  `Int.fdiv` models
Python's floor division. -/
def estimate_remaining_stops (driver : DriverState) (laps_remaining : ℤ) : ℤ :=
  let max_stint := tire_life_lookup driver.tire_compound
  let laps_on_current := driver.tire_age_laps
  let remaining_on_current := max_stint - laps_on_current
  if laps_remaining ≤ remaining_on_current then 0
  else 1 + Int.fdiv (laps_remaining - remaining_on_current) max_stint

/-- Component 3 of the ensemble: strategy projection.  The source's `for`
loop returns at the first competitor that is directly behind AND materially
fresher (modelled by `List.find?` with the conjunction); the overcut branch
reads `competitors[0]`, which raises on an empty list (`none` here).  The
source also computes `estimate_remaining_stops` values that it never uses;
they are pure and are therefore dropped from the embedding. -/
def strategy_projection (driver : DriverState) (competitors : List DriverState)
    (laps_remaining : ℤ) (pit_time_loss : ℚ) : Option (ℚ × String) :=
  match competitors.find? (fun c =>
      decide (c.position = driver.position + 1) &&
      decide (c.tire_age_laps < driver.tire_age_laps - 5)) with
  | some c => some (-(5/100), "Undercut vulnerable to P" ++ toString c.position)
  | none =>
    if driver.tire_compound = "HARD" ∧ 1 < driver.position then
      match competitors with
      | [] => none
      | leader :: _ =>
        if (leader.tire_compound = "SOFT" ∨ leader.tire_compound = "MEDIUM")
            ∧ 15 < leader.tire_age_laps then
          some (5/100, "Overcut potential as leader on worn tires")
        else some (0, "Strategy neutral")
    else some (0, "Strategy neutral")

/-- Component 4 of the ensemble: safety-car / caution adjustment.  Nonzero
only under the caution-type flag states SC, VSC, YELLOW. -/
def safety_car_adjustment (driver : DriverState) (flag_status : String)
    (gap_to_leader : ℚ) (laps_remaining : ℤ) : ℚ :=
  if flag_status ∉ (["SC", "VSC", "YELLOW"] : List String) then 0
  else if driver.position = 1 then -(1/10)
  else if driver.position ≤ 5 then 5/100 + ((5 - driver.position : ℤ) : ℚ) * (2/100)
  else 2/100

/-- Round to the nearest integer, ties to even — the rounding used when
formatting a percentage with one decimal place. -/
def roundHalfEven (q : ℚ) : ℤ :=
  let f := ⌊q⌋
  let r := q - (f : ℚ)
  if r < 1/2 then f else if 1/2 < r then f + 1 else if f % 2 = 0 then f else f + 1

/-- Model of the Python format `f"{q:+.1%}"` on exact decimal values: the
value times 100, with a forced sign and one decimal digit. -/
def pythonPercentFmt (q : ℚ) : String :=
  let n := roundHalfEven (q * 1000)
  let a := n.natAbs
  (if n < 0 then "-" else "+") ++ toString (a / 10) ++ "." ++ toString (a % 10) ++ "%"

/-- The ensemble combiner: sums the four components into a raw score, clamps
it to [0.001, 0.99] for the win probability (normalization across the field
is left to the caller), and attaches a race-progress confidence band and the
key-factor list.  `none` models the `IndexError` paths (empty driver list or
out-of-range position). -/
def compute_win_probability (driver : DriverState) (race_state : RaceState)
    (all_drivers : List DriverState) (track_config : TrackConfig) :
    Option PredictionResult :=
  let laps_remaining := race_state.total_laps - race_state.current_lap
  match position_baseline driver.position laps_remaining all_drivers.length with
  | none => none
  | some base_prob =>
    match all_drivers with
    | [] => none
    | leader :: _ =>
      let pace_adj := pace_adjustment driver leader driver.gap_to_leader
        laps_remaining track_config.overtake_difficulty
      match strategy_projection driver all_drivers laps_remaining
          track_config.pit_time_loss with
      | none => none
      | some (strat_adj, strat_reason) =>
        let sc_adj := safety_car_adjustment driver race_state.flag_status
          driver.gap_to_leader laps_remaining
        let raw_prob := base_prob + pace_adj + strat_adj + sc_adj
        let confidence_width := 25/100 * (1 - race_state.race_progress) + 5/100
        some { driver_id := driver.driver_id
             , win_probability := max (1/1000) (min (99/100) raw_prob)
             , confidence_interval :=
                 (max 0 (raw_prob - confidence_width),
                  min 1 (raw_prob + confidence_width))
             , key_factors :=
                 [ some ("Position: P" ++ toString driver.position)
                 , some ("Pace: " ++ pythonPercentFmt pace_adj ++ " adjustment")
                 , if strat_adj ≠ 0 then some strat_reason else none
                 , if 0 < sc_adj then some "SC boost" else none ] }

/-- The raw (pre-clamp) ensemble score of `compute_win_probability` — the sum
`base_prob + pace_adj + strat_adj + sc_adj` — exposed for the safety-car
transition property. -/
def raw_prediction_score (driver : DriverState) (race_state : RaceState)
    (all_drivers : List DriverState) (track_config : TrackConfig) : Option ℚ :=
  let laps_remaining := race_state.total_laps - race_state.current_lap
  match position_baseline driver.position laps_remaining all_drivers.length with
  | none => none
  | some base_prob =>
    match all_drivers with
    | [] => none
    | leader :: _ =>
      let pace_adj := pace_adjustment driver leader driver.gap_to_leader
        laps_remaining track_config.overtake_difficulty
      match strategy_projection driver all_drivers laps_remaining
          track_config.pit_time_loss with
      | none => none
      | some (strat_adj, _) =>
        let sc_adj := safety_car_adjustment driver race_state.flag_status
          driver.gap_to_leader laps_remaining
        some (base_prob + pace_adj + strat_adj + sc_adj)

/-- The staleness contribution to the standalone confidence-interval width:
+5% per minute of data age, capped at 10%. -/
def staleness_factor_fn (data_staleness : ℚ) : ℚ :=
  min (1/10) (data_staleness / 60 * (5/100))

/-- The total width of the standalone 90% confidence interval:
progress factor + staleness factor + missing-pit-data penalty + 5% floor. -/
def ci_total_width (race_progress data_staleness : ℚ) (has_pit_data : Bool) : ℚ :=
  (30/100) * (1 - race_progress) + staleness_factor_fn data_staleness
    + (if has_pit_data then 0 else 5/100) + 5/100

/-- The standalone confidence-interval computation: the base probability
plus/minus half the total width, the lower bound clamped at 0 and the upper
at 1. -/
def confidence_interval (base_probability race_progress data_staleness : ℚ)
    (has_pit_data : Bool) : ℚ × ℚ :=
  let total_width := ci_total_width race_progress data_staleness has_pit_data
  (max 0 (base_probability - total_width / 2),
   min 1 (base_probability + total_width / 2))

/-- The position-baseline lookup as the claim words it, with the middle
laps-remaining bucket read literally as 10–20 laps inclusive (so 10 laps
remaining selects the middle table).  Kept only to compare the claim's bucket
boundaries against the code's, which places 10 in the late bucket. -/
def position_baseline_claimBuckets (position laps_remaining : ℤ)
    (total_drivers : ℕ) : Option ℚ :=
  let weights : List ℚ :=
    if 20 < laps_remaining then
      [65/100, 18/100, 8/100, 4/100, 2/100] ++ List.replicate (total_drivers - 5) (1/100)
    else if 10 ≤ laps_remaining then
      [75/100, 14/100, 6/100, 3/100, 1/100] ++ List.replicate (total_drivers - 5) (5/1000)
    else
      [85/100, 10/100, 3/100, 15/1000, 5/1000] ++ List.replicate (total_drivers - 5) (1/1000)
  if position ≤ (weights.length : ℤ) then pyIndex weights (position - 1)
  else some (1/1000)

/-- The amended claim's description of the baseline: the table entry at the
1-based position within the bucket table (buckets >20, 11–20 and ≤10 laps
remaining, matching the code's tests), with the fixed minimal weight 0.001
for positions past the table end. -/
def position_baseline_amended (position laps_remaining : ℤ)
    (total_drivers : ℕ) : ℚ :=
  let table : List ℚ :=
    if 20 < laps_remaining then
      [65/100, 18/100, 8/100, 4/100, 2/100] ++ List.replicate (total_drivers - 5) (1/100)
    else if 10 < laps_remaining then
      [75/100, 14/100, 6/100, 3/100, 1/100] ++ List.replicate (total_drivers - 5) (5/1000)
    else
      [85/100, 10/100, 3/100, 15/1000, 5/1000] ++ List.replicate (total_drivers - 5) (1/1000)
  if 1 ≤ position ∧ position ≤ (table.length : ℤ) then
    table.getD (position - 1).toNat (1/1000)
  else 1/1000

/-!
## The `.z` payload pipeline

The repository's `decompress` function (timing documentation) is

  base64-decode, then zlib raw-deflate decompression (negative window
  bits), then JSON parse of the UTF-8 decoded text.

Only `decompress` is in the repository; the compressor producing `.z`
payloads runs on the provider's servers.  Modelled from the spec: the
compression side is raw DEFLATE of the JSON serialization followed by
base64; the model emits stored (uncompressed) DEFLATE blocks, which every
raw-deflate decompressor accepts, and the inflate model covers exactly that
stored-block subset of DEFLATE.  JSON is modelled with integer numbers
(floats are out of the embedding), and the parse model covers the grammar
`json.dumps` emits with default options (`ensure_ascii`, separators
", " / ": "). -/

/-- JSON values.  Arrays and objects are encoded as inline cons-chains
(`arrCons h t` is the array with head `h` and tail array `t`), which keeps
every function on `Json` structurally recursive; `wfJson` below cuts the
encoding down to exactly the JSON values. -/
inductive Json where
  | null : Json
  | bool (b : Bool) : Json
  | num (n : ℤ) : Json
  | str (s : List Char) : Json
  | arrNil : Json
  | arrCons (hd tl : Json) : Json
  | objNil : Json
  | objCons (key : List Char) (val tl : Json) : Json
deriving Repr, DecidableEq

/-- Is this constructor an array node? -/
def isArrJ : Json → Bool
  | .arrNil => true
  | .arrCons _ _ => true
  | _ => false

/-- Is this constructor an object node? -/
def isObjJ : Json → Bool
  | .objNil => true
  | .objCons _ _ _ => true
  | _ => false

/-- Well-formedness of the cons-chain encoding: every array tail is an
array node and every object tail an object node. -/
def wfJson : Json → Bool
  | .null => true
  | .bool _ => true
  | .num _ => true
  | .str _ => true
  | .arrNil => true
  | .arrCons h t => wfJson h && isArrJ t && wfJson t
  | .objNil => true
  | .objCons _ x t => wfJson x && isObjJ t && wfJson t

/-- A size measure used as parser fuel: one unit per node. -/
def jsize : Json → ℕ
  | .null => 1
  | .bool _ => 1
  | .num _ => 1
  | .str _ => 1
  | .arrNil => 1
  | .arrCons h t => 1 + jsize h + jsize t
  | .objNil => 1
  | .objCons _ x t => 1 + jsize x + jsize t

/-- Decimal digit test (the character range '0'–'9'). -/
def isDig (c : Char) : Bool :=
  decide (48 ≤ c.toNat) && decide (c.toNat ≤ 57)

/-- The decimal digit character for a value below 10. -/
def digitChar (d : ℕ) : Char := Char.ofNat (48 + d)

/-- Decimal digits of a natural number, most significant first, with
structural fuel (`natDigits` supplies enough). -/
def natDigitsF : ℕ → ℕ → List Char
  | 0, _ => []
  | f + 1, n => if n < 10 then [digitChar n] else natDigitsF f (n / 10) ++ [digitChar (n % 10)]

/-- Decimal digits of a natural number. -/
def natDigits (n : ℕ) : List Char := natDigitsF (n + 1) n

/-- The value of a decimal digit string. -/
def digitsToNat (ds : List Char) : ℕ :=
  ds.foldl (fun a c => 10 * a + (c.toNat - 48)) 0

/-- Serialization of a Python int by `json.dumps`. -/
def serInt (n : ℤ) : List Char :=
  if n < 0 then '-' :: natDigits n.natAbs else natDigits n.toNat

/-- Lowercase hexadecimal digit character. -/
def hexDigit (d : ℕ) : Char :=
  Char.ofNat (if d < 10 then 48 + d else 87 + d)

/-- Hexadecimal digit value (both cases accepted, as `json.loads` does). -/
def hexVal (c : Char) : Option ℕ :=
  if 48 ≤ c.toNat ∧ c.toNat ≤ 57 then some (c.toNat - 48)
  else if 97 ≤ c.toNat ∧ c.toNat ≤ 102 then some (c.toNat - 87)
  else if 65 ≤ c.toNat ∧ c.toNat ≤ 70 then some (c.toNat - 55)
  else none

/-- Four lowercase hex digits, as in the `\uXXXX` escapes of `json.dumps`. -/
def hex4 (u : ℕ) : List Char :=
  [hexDigit (u / 4096 % 16), hexDigit (u / 256 % 16),
   hexDigit (u / 16 % 16), hexDigit (u % 16)]

/-- Read four hex digits and return their 16-bit value. -/
def readHex4 (cs : List Char) : Option (ℕ × List Char) :=
  match cs with
  | a :: b :: c :: d :: rest =>
    match hexVal a, hexVal b, hexVal c, hexVal d with
    | some va, some vb, some vc, some vd =>
      some (va * 4096 + vb * 256 + vc * 16 + vd, rest)
    | _, _, _, _ => none
  | _ => none

/-- The escape sequence `json.dumps` (with `ensure_ascii`) emits for one
character: the two-character shortcuts, printable ASCII verbatim, `\uXXXX`
otherwise, with a surrogate pair above U+FFFF. -/
def escapeChar (c : Char) : List Char :=
  let u := c.toNat
  if u = 34 then ['\\', '"']
  else if u = 92 then ['\\', '\\']
  else if u = 8 then ['\\', 'b']
  else if u = 9 then ['\\', 't']
  else if u = 10 then ['\\', 'n']
  else if u = 12 then ['\\', 'f']
  else if u = 13 then ['\\', 'r']
  else if 32 ≤ u ∧ u ≤ 126 then [c]
  else if u < 65536 then '\\' :: 'u' :: hex4 u
  else ('\\' :: 'u' :: hex4 (55296 + (u - 65536) / 1024)) ++
       ('\\' :: 'u' :: hex4 (56320 + (u - 65536) % 1024))

/-- Escape a whole string body. -/
def escapeStr : List Char → List Char
  | [] => []
  | c :: cs => escapeChar c ++ escapeStr cs

/-- Prepend a character to the string component of a parse result. -/
def consFst (c : Char) (r : Option (List Char × List Char)) :
    Option (List Char × List Char) :=
  r.map (fun pr => (c :: pr.1, pr.2))

/-- Parse a JSON string body up to the closing quote, decoding the escape
sequences of `json.loads` (including surrogate pairs; lone surrogates are
outside the model because Lean characters are scalar values). -/
def parseStrF : ℕ → List Char → Option (List Char × List Char)
  | 0, _ => none
  | _ + 1, [] => none
  | f + 1, c :: rest =>
    if c = '"' then some ([], rest)
    else if c = '\\' then
      match rest with
      | [] => none
      | e :: rest2 =>
        if e = '"' then consFst '"' (parseStrF f rest2)
        else if e = '\\' then consFst '\\' (parseStrF f rest2)
        else if e = '/' then consFst '/' (parseStrF f rest2)
        else if e = 'b' then consFst (Char.ofNat 8) (parseStrF f rest2)
        else if e = 't' then consFst (Char.ofNat 9) (parseStrF f rest2)
        else if e = 'n' then consFst (Char.ofNat 10) (parseStrF f rest2)
        else if e = 'f' then consFst (Char.ofNat 12) (parseStrF f rest2)
        else if e = 'r' then consFst (Char.ofNat 13) (parseStrF f rest2)
        else if e = 'u' then
          match readHex4 rest2 with
          | none => none
          | some (u, rest3) =>
            if 55296 ≤ u ∧ u < 56320 then
              match rest3 with
              | b1 :: b2 :: rest4 =>
                if b1 = '\\' ∧ b2 = 'u' then
                  match readHex4 rest4 with
                  | none => none
                  | some (v, rest5) =>
                    if 56320 ≤ v ∧ v < 57344 then
                      consFst (Char.ofNat (65536 + (u - 55296) * 1024 + (v - 56320)))
                        (parseStrF f rest5)
                    else none
                else none
              | _ => none
            else if 56320 ≤ u ∧ u < 57344 then none
            else consFst (Char.ofNat u) (parseStrF f rest3)
        else none
    else consFst c (parseStrF f rest)

/-- Parse an integer number token (optional minus, then a digit run). -/
def parseNum (cs : List Char) : Option (Json × List Char) :=
  match cs with
  | [] => none
  | c :: rest =>
    if c = '-' then
      let ds := rest.takeWhile isDig
      if ds.isEmpty then none
      else some (.num (-(digitsToNat ds : ℤ)), rest.dropWhile isDig)
    else
      let ds := (c :: rest).takeWhile isDig
      if ds.isEmpty then none
      else some (.num ((digitsToNat ds : ℤ)), (c :: rest).dropWhile isDig)

/-- Serialization context: a full value, the rest of an array after its
first element, or the rest of an object after its first pair. -/
inductive JMode where
  | value : JMode
  | arrTail : JMode
  | objTail : JMode
deriving Repr, DecidableEq

/-- Serialize a value the way `json.dumps` does with default options
(separators ", " and ": ", `ensure_ascii` escapes).  The two tail modes
serialize the remainder of an array or object chain; on a non-array (resp.
non-object) tail — excluded by `wfJson` — they emit just the closer. -/
def serJ : JMode → Json → List Char
  | .value, .null => ['n', 'u', 'l', 'l']
  | .value, .bool true => ['t', 'r', 'u', 'e']
  | .value, .bool false => ['f', 'a', 'l', 's', 'e']
  | .value, .num n => serInt n
  | .value, .str s => '"' :: (escapeStr s ++ ['"'])
  | .value, .arrNil => ['[', ']']
  | .value, .arrCons h t => '[' :: (serJ .value h ++ serJ .arrTail t)
  | .value, .objNil => ['\x7b', '\x7d']
  | .value, .objCons k x t =>
    '\x7b' :: '"' :: (escapeStr k ++ ('"' :: ':' :: ' ' ::
      (serJ .value x ++ serJ .objTail t)))
  | .arrTail, .arrCons h t => ',' :: ' ' :: (serJ .value h ++ serJ .arrTail t)
  | .arrTail, _ => [']']
  | .objTail, .objCons k x t =>
    ',' :: ' ' :: '"' :: (escapeStr k ++ ('"' :: ':' :: ' ' ::
      (serJ .value x ++ serJ .objTail t)))
  | .objTail, _ => ['\x7d']

/-- Parse a value (or an array/object tail) from the grammar `json.dumps`
emits, with structural fuel; `jsize` of the value is enough fuel. -/
def parseJ : ℕ → JMode → List Char → Option (Json × List Char)
  | 0, _, _ => none
  | _ + 1, .value, [] => none
  | f + 1, .value, c :: rest =>
    if c = 'n' then
      match rest with
      | 'u' :: 'l' :: 'l' :: r => some (.null, r)
      | _ => none
    else if c = 't' then
      match rest with
      | 'r' :: 'u' :: 'e' :: r => some (.bool true, r)
      | _ => none
    else if c = 'f' then
      match rest with
      | 'a' :: 'l' :: 's' :: 'e' :: r => some (.bool false, r)
      | _ => none
    else if c = '"' then
      match parseStrF (rest.length + 1) rest with
      | some (s, r2) => some (.str s, r2)
      | none => none
    else if c = '[' then
      match rest with
      | [] => none
      | c2 :: r2 =>
        if c2 = ']' then some (.arrNil, r2)
        else
          match parseJ f .value (c2 :: r2) with
          | some (h, r3) =>
            match parseJ f .arrTail r3 with
            | some (t, r4) => some (.arrCons h t, r4)
            | none => none
          | none => none
    else if c = '\x7b' then
      match rest with
      | [] => none
      | c2 :: r2 =>
        if c2 = '\x7d' then some (.objNil, r2)
        else if c2 = '"' then
          match parseStrF (r2.length + 1) r2 with
          | some (k, r3) =>
            match r3 with
            | ':' :: ' ' :: r4 =>
              match parseJ f .value r4 with
              | some (x, r5) =>
                match parseJ f .objTail r5 with
                | some (t, r6) => some (.objCons k x t, r6)
                | none => none
              | none => none
            | _ => none
          | none => none
        else none
    else if c = '-' ∨ isDig c then parseNum (c :: rest)
    else none
  | _ + 1, .arrTail, [] => none
  | f + 1, .arrTail, c :: rest =>
    if c = ']' then some (.arrNil, rest)
    else if c = ',' then
      match rest with
      | ' ' :: r2 =>
        match parseJ f .value r2 with
        | some (h, r3) =>
          match parseJ f .arrTail r3 with
          | some (t, r4) => some (.arrCons h t, r4)
          | none => none
        | none => none
      | _ => none
    else none
  | _ + 1, .objTail, [] => none
  | f + 1, .objTail, c :: rest =>
    if c = '\x7d' then some (.objNil, rest)
    else if c = ',' then
      match rest with
      | ' ' :: '"' :: r2 =>
        match parseStrF (r2.length + 1) r2 with
        | some (k, r3) =>
          match r3 with
          | ':' :: ' ' :: r4 =>
            match parseJ f .value r4 with
            | some (x, r5) =>
              match parseJ f .objTail r5 with
              | some (t, r6) => some (.objCons k x t, r6)
              | none => none
            | none => none
          | _ => none
        | none => none
      | _ => none
    else none

/-- Encode text as bytes.  `json.dumps` with `ensure_ascii` emits pure
ASCII, on which UTF-8 is the identity byte-per-character map. -/
def asciiEncode (cs : List Char) : List ℕ := cs.map Char.toNat

/-- Decode bytes as text — the model of `bytes.decode()` restricted to the
ASCII range that the serializer produces. -/
def asciiDecode (bs : List ℕ) : Option (List Char) :=
  bs.mapM (fun b => if b < 128 then some (Char.ofNat b) else none)

/-- Modelled from the spec: raw-DEFLATE compression as performed by the
provider before base64 encoding.  The model emits stored (BTYPE=00) blocks
of at most 65535 bytes; with stored blocks the whole stream is byte-aligned:
each block is one header byte (BFINAL in bit 0, BTYPE=00 in bits 1–2,
padding zero), LEN and its one's-complement NLEN little-endian, then the raw
bytes. -/
def deflateStoreF : ℕ → List ℕ → List ℕ
  | 0, _ => []
  | f + 1, bs =>
    if bs.length ≤ 65535 then
      1 :: bs.length % 256 :: bs.length / 256 ::
        (65535 - bs.length) % 256 :: (65535 - bs.length) / 256 :: bs
    else
      0 :: 255 :: 255 :: 0 :: 0 ::
        (bs.take 65535 ++ deflateStoreF f (bs.drop 65535))

/-- Raw-DEFLATE compression into stored blocks. -/
def deflateStore (bs : List ℕ) : List ℕ := deflateStoreF (bs.length + 1) bs

/-- Modelled from the spec: `zlib.decompress(data, -zlib.MAX_WBITS)` — raw
DEFLATE decompression — restricted to the stored-block subset the modelled
compressor emits.  Checks BTYPE, the LEN/NLEN complement, reads the block
body, and on the final block requires the stream to end. -/
def inflateStoreF : ℕ → List ℕ → Option (List ℕ)
  | 0, _ => none
  | f + 1, b :: l1 :: l2 :: n1 :: n2 :: rest =>
    if b / 2 % 4 = 0 then
      let len := l1 + 256 * l2
      if n1 + 256 * n2 = 65535 - len then
        if len ≤ rest.length then
          if b % 2 = 1 then
            (if rest.drop len = ([] : List ℕ) then some (rest.take len) else none)
          else
            (inflateStoreF f (rest.drop len)).map (fun tl => rest.take len ++ tl)
        else none
      else none
    else none
  | _ + 1, _ => none

/-- Raw-DEFLATE decompression (stored-block subset). -/
def inflateStore (bs : List ℕ) : Option (List ℕ) :=
  inflateStoreF (bs.length + 1) bs

/-- The standard base64 alphabet. -/
def b64Alphabet : List Char :=
  "ABCDEFGHIJKLMNOPQRSTUVWXYZabcdefghijklmnopqrstuvwxyz0123456789+/".toList

/-- The character for a 6-bit group. -/
def b64Char (n : ℕ) : Char := b64Alphabet.getD n 'A'

/-- The 6-bit value of an alphabet character. -/
def b64ValAux : List Char → ℕ → Char → Option ℕ
  | [], _, _ => none
  | a :: as, i, c => if a = c then some i else b64ValAux as (i + 1) c

/-- Look a character up in the base64 alphabet. -/
def b64Val (c : Char) : Option ℕ := b64ValAux b64Alphabet 0 c

/-- Base64 encoding with padding — the model of `base64.b64encode`. -/
def b64Encode : List ℕ → List Char
  | [] => []
  | [a] => [b64Char (a / 4), b64Char (a % 4 * 16), '=', '=']
  | [a, b] => [b64Char (a / 4), b64Char (a % 4 * 16 + b / 16), b64Char (b % 16 * 4), '=']
  | a :: b :: c :: rest =>
    b64Char (a / 4) :: b64Char (a % 4 * 16 + b / 16) ::
      b64Char (b % 16 * 4 + c / 64) :: b64Char (c % 64) :: b64Encode rest

/-- Base64 decoding — the model of `base64.b64decode` on well-padded
input. -/
def b64Decode : List Char → Option (List ℕ)
  | [] => some []
  | c1 :: c2 :: c3 :: c4 :: rest =>
    match b64Val c1, b64Val c2 with
    | some v1, some v2 =>
      if c3 = '=' then
        if c4 = '=' ∧ rest = ([] : List Char) then some [v1 * 4 + v2 / 16]
        else none
      else
        match b64Val c3 with
        | some v3 =>
          if c4 = '=' then
            if rest = ([] : List Char) then
              some [v1 * 4 + v2 / 16, v2 % 16 * 16 + v3 / 4]
            else none
          else
            match b64Val c4 with
            | some v4 =>
              (b64Decode rest).map (fun tl =>
                (v1 * 4 + v2 / 16) :: (v2 % 16 * 16 + v3 / 4) :: (v3 % 4 * 64 + v4) :: tl)
            | none => none
        | none => none
    | _, _ => none
  | _ => none

/-- The repository's `decompress` for `.z` topics: base64-decode, raw
inflate, UTF-8 decode, JSON parse (the parse must consume the whole text,
as `json.loads` requires). -/
def decompress (data : List Char) : Option Json :=
  match b64Decode data with
  | none => none
  | some compressed =>
    match inflateStore compressed with
    | none => none
    | some decompressed =>
      match asciiDecode decompressed with
      | none => none
      | some text =>
        match parseJ (text.length + 1) .value text with
        | some (v, []) => some v
        | _ => none

/-- Modelled from the spec: the provider-side construction of a `.z`
payload — serialize to JSON, raw-deflate, base64-encode. -/
def zPayloadCompress (v : Json) : List Char :=
  b64Encode (deflateStore (asciiEncode (serJ .value v)))

/-- For a 1-based position, the code's guarded `weights[position - 1]` with
fallback 0.001 agrees with a direct table lookup with default. -/
lemma lookup_eq_getD (w : List ℚ) (p : ℤ) (hp : 1 ≤ p) :
    (if p ≤ (w.length : ℤ) then pyIndex w (p - 1) else some (1/1000)) =
    some (if 1 ≤ p ∧ p ≤ (w.length : ℤ) then w.getD (p - 1).toNat (1/1000)
          else (1/1000 : ℚ)) := by
  by_cases hle : p ≤ (w.length : ℤ)
  · have h0 : (0 : ℤ) ≤ p - 1 := by omega
    have hlt : (p - 1).toNat < w.length := by omega
    rw [if_pos hle, if_pos ⟨hp, hle⟩]
    unfold pyIndex
    rw [if_pos h0, List.getD_eq_getElem?_getD, List.get?_eq_getElem?,
      List.getElem?_eq_getElem hlt]
    rfl
  · rw [if_neg hle, if_neg (fun h => hle h.2)]

/-- The pace-differential adjustment written with its guard spelled out as a
proposition: the laps-to-catch test succeeds exactly when the pace delta is
positive and the quotient is below 90% of the remaining laps. -/
lemma pace_adjustment_eq (d l : DriverState) (gap : ℚ) (laps : ℤ) (diff : ℚ) :
    pace_adjustment d l gap laps diff =
      (if 1/2 < l.rolling_pace_5lap - d.rolling_pace_5lap then
        (if 0 < l.rolling_pace_5lap - d.rolling_pace_5lap ∧
            gap / (l.rolling_pace_5lap - d.rolling_pace_5lap) < (laps : ℚ) * (9/10)
         then 15/100 * (1 - diff * (1/2)) else 2/100)
      else if 1/5 < l.rolling_pace_5lap - d.rolling_pace_5lap then
        (if 0 < l.rolling_pace_5lap - d.rolling_pace_5lap ∧
            gap / (l.rolling_pace_5lap - d.rolling_pace_5lap) < (laps : ℚ) * (9/10)
         then 8/100 * (1 - diff * (1/2)) else 1/100)
      else if l.rolling_pace_5lap - d.rolling_pace_5lap < -(3/10) then -(1/10)
      else 0) := by
  unfold pace_adjustment laps_to_catch_opt
  by_cases hpos : 0 < l.rolling_pace_5lap - d.rolling_pace_5lap
  · by_cases hc : gap / (l.rolling_pace_5lap - d.rolling_pace_5lap) <
        (laps : ℚ) * (9/10)
    · simp [hpos, hc]
    · simp [hpos, hc]
  · simp [hpos]

/-- Evaluating `Char.ofNat` at a valid code point and reading the code
point back is the identity. -/
lemma charToNat_ofNat (n : ℕ) (h : n.isValidChar) : (Char.ofNat n).toNat = n := by
  simp only [Char.ofNat, h, dite_true, Char.ofNatAux, Char.toNat]
  rfl

/-- The code point ranges of a character: below the surrogates or between
them and the Unicode ceiling. -/
lemma charValidRanges (c : Char) :
    c.toNat < 55296 ∨ (57343 < c.toNat ∧ c.toNat < 1114112) := c.valid

/-- A character is recovered from its code point. -/
lemma charOfNat_toNat (c : Char) : Char.ofNat c.toNat = c := Char.ofNat_toNat c

lemma digitChar_toNat (d : ℕ) (hd : d < 10) : (digitChar d).toNat = 48 + d :=
  charToNat_ofNat _ (Or.inl (by omega))

lemma isDig_digitChar (d : ℕ) (hd : d < 10) : isDig (digitChar d) = true := by
  simp only [isDig, digitChar_toNat d hd, Bool.and_eq_true, decide_eq_true_eq]
  omega

lemma isDig_bounds (c : Char) (h : isDig c = true) :
    48 ≤ c.toNat ∧ c.toNat ≤ 57 := by
  simpa only [isDig, Bool.and_eq_true, decide_eq_true_eq] using h

/-- The digit expansion with fuel above the value: every character is a
digit, the list is nonempty, and reading it back yields the value. -/
lemma natDigitsF_spec : ∀ f n, n < f →
    (∀ c ∈ natDigitsF f n, isDig c = true) ∧ natDigitsF f n ≠ [] ∧
    digitsToNat (natDigitsF f n) = n := by
  intro f
  induction f with
  | zero => intro n h; omega
  | succ f ih =>
    intro n h
    by_cases h10 : n < 10
    · refine ⟨?_, ?_, ?_⟩
      · intro c hc
        simp only [natDigitsF, h10, if_true, List.mem_singleton] at hc
        subst hc; exact isDig_digitChar n h10
      · simp [natDigitsF, h10]
      · simp only [natDigitsF, h10, if_true, digitsToNat, List.foldl]
        rw [digitChar_toNat n h10]; omega
    · have hn : n / 10 < f := by omega
      obtain ⟨ha, hb, hc⟩ := ih (n / 10) hn
      simp only [natDigitsF, h10, if_false]
      refine ⟨?_, ?_, ?_⟩
      · intro c hcm
        rcases List.mem_append.1 hcm with h1 | h2
        · exact ha c h1
        · simp only [List.mem_singleton] at h2; subst h2
          exact isDig_digitChar _ (by omega)
      · intro heq
        exact hb (List.append_eq_nil.1 heq).1
      · unfold digitsToNat at hc ⊢
        rw [List.foldl_append]
        simp only [List.foldl]
        rw [digitChar_toNat _ (by omega : n % 10 < 10)]
        rw [hc]
        omega

lemma natDigits_spec (n : ℕ) :
    (∀ c ∈ natDigits n, isDig c = true) ∧ natDigits n ≠ [] ∧
    digitsToNat (natDigits n) = n :=
  natDigitsF_spec (n + 1) n (Nat.lt_succ_self n)

/-- `takeWhile`/`dropWhile` over a satisfying prefix followed by a
non-satisfying head split exactly at the junction. -/
lemma takeWhile_dropWhile_append (p : Char → Bool) (ds rest : List Char)
    (h1 : ∀ d ∈ ds, p d = true)
    (h2 : ∀ c cs, rest = c :: cs → p c = false) :
    (ds ++ rest).takeWhile p = ds ∧ (ds ++ rest).dropWhile p = rest := by
  induction ds with
  | nil =>
    simp only [List.nil_append]
    cases rest with
    | nil => simp
    | cons c cs =>
      have hpc := h2 c cs rfl
      constructor
      · rw [List.takeWhile_cons, hpc]; rfl
      · rw [List.dropWhile_cons, hpc]; rfl
  | cons d ds ih =>
    have hd := h1 d (List.mem_cons_self _ _)
    obtain ⟨iht, ihd⟩ := ih (fun x hx => h1 x (List.mem_cons_of_mem _ hx))
    constructor
    · simp only [List.cons_append, List.takeWhile_cons, hd, if_true, iht]
    · simp only [List.cons_append, List.dropWhile_cons, hd, if_true, ihd]

/-- The rest of the input does not begin with a decimal digit — the
condition under which a serialized number token ends where it should. -/
def nonDigitHead (r : List Char) : Prop :=
  ∀ c cs, r = c :: cs → isDig c = false

lemma nonDigitHead_of_head (c : Char) (cs : List Char) (h : isDig c = false) :
    nonDigitHead (c :: cs) := by
  intro c2 cs2 he
  cases he
  exact h

/-- Parsing a serialized integer returns the integer and the untouched
rest. -/
lemma parseNum_serInt (n : ℤ) (rest : List Char) (hr : nonDigitHead rest) :
    parseNum (serInt n ++ rest) = some (.num n, rest) := by
  by_cases hneg : n < 0
  · obtain ⟨ha, hb, hc⟩ := natDigits_spec n.natAbs
    obtain ⟨ht, hd⟩ := takeWhile_dropWhile_append isDig (natDigits n.natAbs) rest ha hr
    simp only [serInt, hneg, if_true, List.cons_append, parseNum, if_pos rfl]
    rw [ht, hd]
    rw [if_neg (by simpa [List.isEmpty_iff] using hb)]
    have : -(digitsToNat (natDigits n.natAbs) : ℤ) = n := by
      rw [hc]; omega
    rw [this]
  · obtain ⟨ha, hb, hc⟩ := natDigits_spec n.toNat
    obtain ⟨ht, hd⟩ := takeWhile_dropWhile_append isDig (natDigits n.toNat) rest ha hr
    obtain ⟨c0, cs0, hC⟩ : ∃ c0 cs0, natDigits n.toNat = c0 :: cs0 := by
      cases hh : natDigits n.toNat with
      | nil => exact absurd hh hb
      | cons a b => exact ⟨a, b, rfl⟩
    have hdig := ha c0 (by rw [hC]; exact List.mem_cons_self _ _)
    have hnotminus : ¬ c0 = '-' := by
      intro he
      have := isDig_bounds c0 hdig
      rw [he] at this
      simp at this
    simp only [serInt, hneg, if_false]
    rw [hC] at ht hd ⊢
    simp only [List.cons_append, parseNum, if_neg hnotminus]
    rw [show c0 :: (cs0 ++ rest) = (c0 :: cs0) ++ rest from rfl, ht, hd]
    rw [if_neg (by simp [List.isEmpty_iff])]
    have : (digitsToNat (c0 :: cs0) : ℤ) = n := by
      rw [← hC, hc]; omega
    rw [this]

/-- The first character of a serialized integer: a minus sign or a digit. -/
lemma serInt_head (n : ℤ) :
    ∃ c cs, serInt n = c :: cs ∧ (c = '-' ∨ isDig c = true) := by
  by_cases hneg : n < 0
  · exact ⟨'-', natDigits n.natAbs, by simp [serInt, hneg], Or.inl rfl⟩
  · obtain ⟨ha, hb, _⟩ := natDigits_spec n.toNat
    obtain ⟨c0, cs0, hC⟩ : ∃ c0 cs0, natDigits n.toNat = c0 :: cs0 := by
      cases hh : natDigits n.toNat with
      | nil => exact absurd hh hb
      | cons a b => exact ⟨a, b, rfl⟩
    refine ⟨c0, cs0, by simp [serInt, hneg, hC], Or.inr ?_⟩
    exact ha c0 (by rw [hC]; exact List.mem_cons_self _ _)

lemma hexDigit_val : ∀ d, d < 16 → hexVal (hexDigit d) = some d := by decide

/-- Reading back four emitted hex digits recovers the 16-bit value. -/
lemma readHex4_hex4 (u : ℕ) (hu : u < 65536) (rest : List Char) :
    readHex4 (hex4 u ++ rest) = some (u, rest) := by
  have h1 := hexDigit_val (u / 4096 % 16) (by omega)
  have h2 := hexDigit_val (u / 256 % 16) (by omega)
  have h3 := hexDigit_val (u / 16 % 16) (by omega)
  have h4 := hexDigit_val (u % 16) (by omega)
  simp only [hex4, List.cons_append, List.nil_append, readHex4, h1, h2, h3, h4]
  simp only [Option.some.injEq, Prod.mk.injEq]
  refine ⟨by omega, by simp⟩

/-- Unfolding of the parser across a `\\u` escape prefix. -/
lemma parseStrF_bu (f : ℕ) (rest : List Char) :
    parseStrF (f + 1) ('\\' :: 'u' :: rest) =
      (match readHex4 rest with
       | none => none
       | some (u, rest3) =>
         if 55296 ≤ u ∧ u < 56320 then
           (match rest3 with
            | b1 :: b2 :: rest4 =>
              if b1 = '\\' ∧ b2 = 'u' then
                (match readHex4 rest4 with
                 | none => none
                 | some (v, rest5) =>
                   if 56320 ≤ v ∧ v < 57344 then
                     consFst (Char.ofNat (65536 + (u - 55296) * 1024 + (v - 56320)))
                       (parseStrF f rest5)
                   else none)
              else none
            | _ => none)
         else if 56320 ≤ u ∧ u < 57344 then none
         else consFst (Char.ofNat u) (parseStrF f rest3)) := by
  simp [parseStrF]

/-- One parser step across one emitted escape sequence prepends exactly the
escaped character. -/
lemma parseStrF_escapeChar (c : Char) (f : ℕ) (tail : List Char) :
    parseStrF (f + 1) (escapeChar c ++ tail) = consFst c (parseStrF f tail) := by
  by_cases h34 : c.toNat = 34
  · have hc : c = '"' := by rw [← charOfNat_toNat c, h34]
    subst hc
    simp [escapeChar, parseStrF]
  by_cases h92 : c.toNat = 92
  · have hc : c = '\\' := by rw [← charOfNat_toNat c, h92]
    subst hc
    simp [escapeChar, parseStrF]
  by_cases h8 : c.toNat = 8
  · have hc : c = Char.ofNat 8 := by rw [← charOfNat_toNat c, h8]
    rw [hc]
    have ht : (Char.ofNat 8).toNat = 8 := by decide
    simp [escapeChar, ht, parseStrF]
  by_cases h9 : c.toNat = 9
  · have hc : c = Char.ofNat 9 := by rw [← charOfNat_toNat c, h9]
    rw [hc]
    have ht : (Char.ofNat 9).toNat = 9 := by decide
    simp [escapeChar, ht, parseStrF]
  by_cases h10 : c.toNat = 10
  · have hc : c = Char.ofNat 10 := by rw [← charOfNat_toNat c, h10]
    rw [hc]
    have ht : (Char.ofNat 10).toNat = 10 := by decide
    simp [escapeChar, ht, parseStrF]
  by_cases h12 : c.toNat = 12
  · have hc : c = Char.ofNat 12 := by rw [← charOfNat_toNat c, h12]
    rw [hc]
    have ht : (Char.ofNat 12).toNat = 12 := by decide
    simp [escapeChar, ht, parseStrF]
  by_cases h13 : c.toNat = 13
  · have hc : c = Char.ofNat 13 := by rw [← charOfNat_toNat c, h13]
    rw [hc]
    have ht : (Char.ofNat 13).toNat = 13 := by decide
    simp [escapeChar, ht, parseStrF]
  by_cases hpr : 32 ≤ c.toNat ∧ c.toNat ≤ 126
  · have hne1 : ¬ c = '"' := fun he => h34 (by rw [he]; rfl)
    have hne2 : ¬ c = '\\' := fun he => h92 (by rw [he]; rfl)
    simp only [escapeChar, h34, h92, h8, h9, h10, h12, h13,
      if_false, hpr, and_self, if_true, ite_true, ite_false,
      List.cons_append, List.nil_append]
    simp only [parseStrF]
    rw [if_neg hne1, if_neg hne2]
  by_cases hbmp : c.toNat < 65536
  · have hnosur1 : ¬ (55296 ≤ c.toNat ∧ c.toNat < 56320) := by
      rcases charValidRanges c with hv | hv <;> omega
    have hnosur2 : ¬ (56320 ≤ c.toNat ∧ c.toNat < 57344) := by
      rcases charValidRanges c with hv | hv <;> omega
    simp only [escapeChar, h34, h92, h8, h9, h10, h12, h13,
      if_false, hpr, hbmp, and_self, if_true, ite_true, ite_false,
      List.cons_append]
    rw [parseStrF_bu]
    simp only [readHex4_hex4 c.toNat hbmp tail, hnosur1, hnosur2,
      ite_false, charOfNat_toNat]
  · have hhigh : c.toNat < 1114112 := by
      rcases charValidRanges c with hv | hv <;> omega
    have hh2 : 55296 + (c.toNat - 65536) / 1024 < 65536 := by omega
    have hl2 : 56320 + (c.toNat - 65536) % 1024 < 65536 := by omega
    simp only [escapeChar, h34, h92, h8, h9, h10, h12, h13,
      if_false, hpr, hbmp, if_true, List.cons_append, List.append_assoc,
      List.nil_append]
    have hs1 : 55296 ≤ 55296 + (c.toNat - 65536) / 1024 ∧
        55296 + (c.toNat - 65536) / 1024 < 56320 := by omega
    have hs2 : 56320 ≤ 56320 + (c.toNat - 65536) % 1024 ∧
        56320 + (c.toNat - 65536) % 1024 < 57344 := by omega
    have harith : 65536 + (55296 + (c.toNat - 65536) / 1024 - 55296) * 1024 +
        (56320 + (c.toNat - 65536) % 1024 - 56320) = c.toNat := by omega
    rw [parseStrF_bu]
    simp only [readHex4_hex4 _ hh2, readHex4_hex4 _ hl2, hs1, hs2,
      and_self, if_true, ite_true, harith, charOfNat_toNat]

/-- Parsing the escaped body plus closing quote recovers the string. -/
lemma parseStrF_escapeStr : ∀ (s : List Char) (f : ℕ) (tail : List Char),
    s.length < f →
    parseStrF f (escapeStr s ++ ('"' :: tail)) = some (s, tail) := by
  intro s
  induction s with
  | nil =>
    intro f tail hf
    cases f with
    | zero => omega
    | succ f =>
      simp only [escapeStr, List.nil_append]
      simp [parseStrF]
  | cons c cs ih =>
    intro f tail hf
    cases f with
    | zero => omega
    | succ f =>
      simp only [escapeStr, List.append_assoc]
      rw [parseStrF_escapeChar c f (escapeStr cs ++ ('"' :: tail))]
      rw [ih f tail (by simpa using Nat.lt_of_succ_lt_succ hf)]
      rfl

lemma escapeStr_length (s : List Char) : s.length ≤ (escapeStr s).length := by
  induction s with
  | nil => simp [escapeStr]
  | cons c cs ih =>
    have hc : 1 ≤ (escapeChar c).length := by
      unfold escapeChar
      dsimp only
      split_ifs <;> simp [hex4]
    simp only [escapeStr, List.length_append, List.length_cons]
    omega

lemma jsize_pos : ∀ v, 1 ≤ jsize v := by
  intro v
  cases v <;> simp [jsize] <;> omega

/-- The serialized tail of a well-formed array starts with a closer or a
separator, never a digit. -/
lemma nonDigit_arrTail (t : Json) (ht : isArrJ t = true) (rest : List Char) :
    nonDigitHead (serJ .arrTail t ++ rest) := by
  cases t with
  | arrNil =>
    exact nonDigitHead_of_head _ _ (by decide)
  | arrCons h t2 =>
    exact nonDigitHead_of_head _ _ (by decide)
  | null => simp [isArrJ] at ht
  | bool b => simp [isArrJ] at ht
  | num n => simp [isArrJ] at ht
  | str s => simp [isArrJ] at ht
  | objNil => simp [isArrJ] at ht
  | objCons k x t2 => simp [isArrJ] at ht

/-- The serialized tail of a well-formed object starts with a closer or a
separator, never a digit. -/
lemma nonDigit_objTail (t : Json) (ht : isObjJ t = true) (rest : List Char) :
    nonDigitHead (serJ .objTail t ++ rest) := by
  cases t with
  | objNil =>
    exact nonDigitHead_of_head _ _ (by decide)
  | objCons k x t2 =>
    exact nonDigitHead_of_head _ _ (by decide)
  | null => simp [isObjJ] at ht
  | bool b => simp [isObjJ] at ht
  | num n => simp [isObjJ] at ht
  | str s => simp [isObjJ] at ht
  | arrNil => simp [isObjJ] at ht
  | arrCons h t2 => simp [isObjJ] at ht

/-- The first character of a serialized integer, with the inequalities the
value-mode parser dispatch needs. -/
lemma serInt_head_conds (n : ℤ) :
    ∃ c cs, serInt n = c :: cs ∧ ¬ c = 'n' ∧ ¬ c = 't' ∧ ¬ c = 'f' ∧
      ¬ c = '"' ∧ ¬ c = '[' ∧ ¬ c = '\x7b' ∧ (c = '-' ∨ isDig c = true) := by
  rcases serInt_head n with ⟨c, cs, hC, hd⟩
  rcases hd with hminus | hdig
  · subst hminus
    exact ⟨'-', cs, hC, by decide, by decide, by decide, by decide, by decide,
      by decide, Or.inl rfl⟩
  · have hb := isDig_bounds c hdig
    refine ⟨c, cs, hC, ?_, ?_, ?_, ?_, ?_, ?_, Or.inr hdig⟩
    all_goals intro he
    all_goals rw [he] at hb
    all_goals exact absurd hb (by decide)

/-- The first character of any serialized value is never an array closer. -/
lemma serJ_value_head (v : Json) :
    ∃ c cs, serJ .value v = c :: cs ∧ ¬ c = ']' := by
  cases v with
  | null => exact ⟨'n', _, rfl, by decide⟩
  | bool b =>
    cases b with
    | false => exact ⟨'f', _, rfl, by decide⟩
    | true => exact ⟨'t', _, rfl, by decide⟩
  | num n =>
    obtain ⟨c, cs, hC, hd⟩ := serInt_head n
    refine ⟨c, cs, hC, ?_⟩
    rcases hd with hminus | hdig
    · subst hminus; decide
    · have hb := isDig_bounds c hdig
      intro he; rw [he] at hb; exact absurd hb (by decide)
  | str s => exact ⟨'"', _, rfl, by decide⟩
  | arrNil => exact ⟨'[', _, rfl, by decide⟩
  | arrCons h t => exact ⟨'[', _, rfl, by decide⟩
  | objNil => exact ⟨'\x7b', _, rfl, by decide⟩
  | objCons k x t => exact ⟨'\x7b', _, rfl, by decide⟩

/-- The size measure is bounded by the serialized length, so the input
length is always enough parser fuel. -/
lemma jsize_le_len : ∀ v, wfJson v = true →
    jsize v ≤ (serJ .value v).length ∧
    (isArrJ v = true → jsize v ≤ (serJ .arrTail v).length) ∧
    (isObjJ v = true → jsize v ≤ (serJ .objTail v).length) := by
  intro v
  induction v with
  | null => intro _; refine ⟨by simp [jsize, serJ], ?_, ?_⟩ <;> intro h <;>
      simp [isArrJ, isObjJ] at h
  | bool b =>
    intro _
    cases b <;> refine ⟨by simp [jsize, serJ], ?_, ?_⟩ <;> intro h <;>
      simp [isArrJ, isObjJ] at h
  | num n =>
    intro _
    obtain ⟨c, cs, hC, _⟩ := serInt_head n
    refine ⟨?_, ?_, ?_⟩
    · simp [jsize, serJ, hC]
    · intro h; simp [isArrJ] at h
    · intro h; simp [isObjJ] at h
  | str s => intro _; refine ⟨by simp [jsize, serJ], ?_, ?_⟩ <;> intro h <;>
      simp [isArrJ, isObjJ] at h
  | arrNil => intro _; exact ⟨by simp [jsize, serJ], fun _ => by simp [jsize, serJ],
      fun h => by simp [isObjJ] at h⟩
  | arrCons h t ihh iht =>
    intro hwf
    simp only [wfJson, Bool.and_eq_true] at hwf
    obtain ⟨⟨hwh, hat⟩, hwt⟩ := hwf
    have h1 := (ihh hwh).1
    have h2 := (iht hwt).2.1 hat
    refine ⟨?_, fun _ => ?_, fun hx => by simp [isObjJ] at hx⟩
    · simp only [jsize, serJ, List.length_cons, List.length_append]
      omega
    · simp only [jsize, serJ, List.length_cons, List.length_append]
      omega
  | objNil => intro _; exact ⟨by simp [jsize, serJ], fun h => by simp [isArrJ] at h,
      fun _ => by simp [jsize, serJ]⟩
  | objCons k x t ihx iht =>
    intro hwf
    simp only [wfJson, Bool.and_eq_true] at hwf
    obtain ⟨⟨hwx, hot⟩, hwt⟩ := hwf
    have h1 := (ihx hwx).1
    have h2 := (iht hwt).2.2 hot
    refine ⟨?_, fun hx => by simp [isArrJ] at hx, fun _ => ?_⟩
    · simp only [jsize, serJ, List.length_cons, List.length_append]
      omega
    · simp only [jsize, serJ, List.length_cons, List.length_append]
      omega

/-- Parsing inverts serialization: with fuel at least the value's size and a
rest that cannot extend a number token, the parser returns exactly the
serialized value and the untouched rest — in value mode for every
well-formed value, and in the tail modes for array/object chains. -/
lemma parseJ_serJ : ∀ f v rest, jsize v ≤ f → wfJson v = true →
    (nonDigitHead rest → parseJ f .value (serJ .value v ++ rest) = some (v, rest)) ∧
    (isArrJ v = true → parseJ f .arrTail (serJ .arrTail v ++ rest) = some (v, rest)) ∧
    (isObjJ v = true → parseJ f .objTail (serJ .objTail v ++ rest) = some (v, rest)) := by
  intro f
  induction f with
  | zero =>
    intro v rest hsz hwf
    have := jsize_pos v
    omega
  | succ f ih =>
    intro v rest hsz hwf
    cases v with
    | null =>
      refine ⟨fun _ => ?_, fun h => by simp [isArrJ] at h,
        fun h => by simp [isObjJ] at h⟩
      simp [serJ, parseJ]
    | bool b =>
      refine ⟨fun _ => ?_, fun h => by simp [isArrJ] at h,
        fun h => by simp [isObjJ] at h⟩
      cases b <;> simp [serJ, parseJ]
    | num n =>
      refine ⟨fun hrest => ?_, fun h => by simp [isArrJ] at h,
        fun h => by simp [isObjJ] at h⟩
      obtain ⟨c0, cs0, hC, hn, ht2, hf2, hq, hbr, hob, hnum⟩ := serInt_head_conds n
      show parseJ (f + 1) .value (serInt n ++ rest) = some (.num n, rest)
      rw [hC]
      simp only [List.cons_append, parseJ]
      rw [if_neg hn, if_neg ht2, if_neg hf2, if_neg hq, if_neg hbr, if_neg hob,
        if_pos hnum]
      rw [show c0 :: cs0.append rest = serInt n ++ rest from by rw [hC]; rfl]
      exact parseNum_serInt n rest hrest
    | str s =>
      refine ⟨fun _ => ?_, fun h => by simp [isArrJ] at h,
        fun h => by simp [isObjJ] at h⟩
      show parseJ (f + 1) .value (('"' :: (escapeStr s ++ ['"'])) ++ rest)
        = some (.str s, rest)
      have hassoc : ('"' :: (escapeStr s ++ ['"'])) ++ rest
          = '"' :: (escapeStr s ++ ('"' :: rest)) := by simp
      rw [hassoc]
      have hlen : s.length < (escapeStr s ++ ('"' :: rest)).length + 1 := by
        have := escapeStr_length s
        simp only [List.length_append, List.length_cons]
        omega
      have hstr := parseStrF_escapeStr s ((escapeStr s ++ ('"' :: rest)).length + 1)
        rest hlen
      simp [parseJ, hstr, -List.length_append, -List.length_cons]
    | arrNil =>
      refine ⟨fun _ => ?_, fun _ => ?_, fun h => by simp [isObjJ] at h⟩
      · simp [serJ, parseJ]
      · simp [serJ, parseJ]
    | arrCons h t =>
      simp only [wfJson, Bool.and_eq_true] at hwf
      obtain ⟨⟨hwh, hat⟩, hwt⟩ := hwf
      have hszh : jsize h ≤ f := by
        have := jsize_pos t; simp only [jsize] at hsz; omega
      have hszt : jsize t ≤ f := by
        have := jsize_pos h; simp only [jsize] at hsz; omega
      have hval := (ih h (serJ .arrTail t ++ rest) hszh hwh).1
        (nonDigit_arrTail t hat rest)
      have hit := (ih t rest hszt hwt).2.1 hat
      obtain ⟨ch, csh, hCh, hch⟩ := serJ_value_head h
      rw [hCh] at hval
      simp only [List.cons_append] at hval
      refine ⟨fun _ => ?_, fun _ => ?_, fun hx => by simp [isObjJ] at hx⟩
      · show parseJ (f + 1) .value
          (('[' :: (serJ .value h ++ serJ .arrTail t)) ++ rest)
          = some (.arrCons h t, rest)
        rw [hCh]
        simp only [List.cons_append, List.append_assoc]
        simp [parseJ, hch, hval, hit]
      · show parseJ (f + 1) .arrTail
          ((',' :: ' ' :: (serJ .value h ++ serJ .arrTail t)) ++ rest)
          = some (.arrCons h t, rest)
        rw [hCh]
        simp only [List.cons_append, List.append_assoc]
        simp [parseJ, hval, hit]
    | objNil =>
      refine ⟨fun _ => ?_, fun h => by simp [isArrJ] at h, fun _ => ?_⟩
      · simp [serJ, parseJ]
      · simp [serJ, parseJ]
    | objCons k x t =>
      simp only [wfJson, Bool.and_eq_true] at hwf
      obtain ⟨⟨hwx, hot⟩, hwt⟩ := hwf
      have hszx : jsize x ≤ f := by
        have := jsize_pos t; simp only [jsize] at hsz; omega
      have hszt : jsize t ≤ f := by
        have := jsize_pos x; simp only [jsize] at hsz; omega
      have hval := (ih x (serJ .objTail t ++ rest) hszx hwx).1
        (nonDigit_objTail t hot rest)
      have hit := (ih t rest hszt hwt).2.2 hot
      have hklen : k.length <
          (escapeStr k ++ ('"' :: ':' :: ' ' ::
            (serJ .value x ++ (serJ .objTail t ++ rest)))).length + 1 := by
        have := escapeStr_length k
        simp only [List.length_append, List.length_cons]
        omega
      have hkey := parseStrF_escapeStr k
        ((escapeStr k ++ ('"' :: ':' :: ' ' ::
          (serJ .value x ++ (serJ .objTail t ++ rest)))).length + 1)
        (':' :: ' ' :: (serJ .value x ++ (serJ .objTail t ++ rest))) hklen
      refine ⟨fun _ => ?_, fun hx => by simp [isArrJ] at hx, fun _ => ?_⟩
      · show parseJ (f + 1) .value
          (('\x7b' :: '"' :: (escapeStr k ++ ('"' :: ':' :: ' ' ::
            (serJ .value x ++ serJ .objTail t)))) ++ rest)
          = some (.objCons k x t, rest)
        simp only [List.cons_append, List.append_assoc]
        simp [parseJ, hkey, hval, hit, -List.length_append, -List.length_cons]
      · show parseJ (f + 1) .objTail
          ((',' :: ' ' :: '"' :: (escapeStr k ++ ('"' :: ':' :: ' ' ::
            (serJ .value x ++ serJ .objTail t)))) ++ rest)
          = some (.objCons k x t, rest)
        simp only [List.cons_append, List.append_assoc]
        simp [parseJ, hkey, hval, hit, -List.length_append, -List.length_cons]

lemma hexDigit_ascii : ∀ d, d < 16 → (hexDigit d).toNat < 128 := by decide

lemma ascii_of_all (l : List Char)
    (hall : l.all (fun c => decide (c.toNat < 128)) = true) :
    ∀ c ∈ l, c.toNat < 128 := by
  intro c hc
  have := List.all_eq_true.1 hall c hc
  simpa using this

lemma escapeChar_ascii (c : Char) : ∀ x ∈ escapeChar c, x.toNat < 128 := by
  intro x hx
  simp only [escapeChar] at hx
  by_cases h34 : c.toNat = 34
  · rw [if_pos h34] at hx
    rcases List.mem_cons.1 hx with h | h
    · subst h; decide
    · simp only [List.mem_singleton] at h; subst h; decide
  rw [if_neg h34] at hx
  by_cases h92 : c.toNat = 92
  · rw [if_pos h92] at hx
    rcases List.mem_cons.1 hx with h | h
    · subst h; decide
    · simp only [List.mem_singleton] at h; subst h; decide
  rw [if_neg h92] at hx
  by_cases h8 : c.toNat = 8
  · rw [if_pos h8] at hx
    rcases List.mem_cons.1 hx with h | h
    · subst h; decide
    · simp only [List.mem_singleton] at h; subst h; decide
  rw [if_neg h8] at hx
  by_cases h9 : c.toNat = 9
  · rw [if_pos h9] at hx
    rcases List.mem_cons.1 hx with h | h
    · subst h; decide
    · simp only [List.mem_singleton] at h; subst h; decide
  rw [if_neg h9] at hx
  by_cases h10 : c.toNat = 10
  · rw [if_pos h10] at hx
    rcases List.mem_cons.1 hx with h | h
    · subst h; decide
    · simp only [List.mem_singleton] at h; subst h; decide
  rw [if_neg h10] at hx
  by_cases h12 : c.toNat = 12
  · rw [if_pos h12] at hx
    rcases List.mem_cons.1 hx with h | h
    · subst h; decide
    · simp only [List.mem_singleton] at h; subst h; decide
  rw [if_neg h12] at hx
  by_cases h13 : c.toNat = 13
  · rw [if_pos h13] at hx
    rcases List.mem_cons.1 hx with h | h
    · subst h; decide
    · simp only [List.mem_singleton] at h; subst h; decide
  rw [if_neg h13] at hx
  by_cases hpr : 32 ≤ c.toNat ∧ c.toNat ≤ 126
  · rw [if_pos hpr] at hx
    simp only [List.mem_singleton] at hx
    subst hx; omega
  rw [if_neg hpr] at hx
  by_cases hbmp : c.toNat < 65536
  · rw [if_pos hbmp] at hx
    rcases List.mem_cons.1 hx with h | h
    · subst h; decide
    rcases List.mem_cons.1 h with h2 | h2
    · subst h2; decide
    simp only [hex4, List.mem_cons, List.mem_singleton, List.not_mem_nil,
      or_false] at h2
    rcases h2 with h3 | h3 | h3 | h3 <;> rw [h3] <;>
      exact hexDigit_ascii _ (Nat.mod_lt _ (by norm_num))
  · rw [if_neg hbmp] at hx
    simp only [hex4, List.mem_append, List.mem_cons, List.mem_singleton,
      List.not_mem_nil, or_false] at hx
    rcases hx with (h | h | h | h | h | h) | (h | h | h | h | h | h)
    · rw [h]; decide
    · rw [h]; decide
    · rw [h]; exact hexDigit_ascii _ (Nat.mod_lt _ (by norm_num))
    · rw [h]; exact hexDigit_ascii _ (Nat.mod_lt _ (by norm_num))
    · rw [h]; exact hexDigit_ascii _ (Nat.mod_lt _ (by norm_num))
    · rw [h]; exact hexDigit_ascii _ (Nat.mod_lt _ (by norm_num))
    · rw [h]; decide
    · rw [h]; decide
    · rw [h]; exact hexDigit_ascii _ (Nat.mod_lt _ (by norm_num))
    · rw [h]; exact hexDigit_ascii _ (Nat.mod_lt _ (by norm_num))
    · rw [h]; exact hexDigit_ascii _ (Nat.mod_lt _ (by norm_num))
    · rw [h]; exact hexDigit_ascii _ (Nat.mod_lt _ (by norm_num))

lemma escapeStr_ascii (s : List Char) : ∀ x ∈ escapeStr s, x.toNat < 128 := by
  induction s with
  | nil => intro x hx; simp [escapeStr] at hx
  | cons c cs ih =>
    intro x hx
    simp only [escapeStr, List.mem_append] at hx
    rcases hx with h | h
    · exact escapeChar_ascii c x h
    · exact ih x h

lemma serInt_ascii (n : ℤ) : ∀ x ∈ serInt n, x.toNat < 128 := by
  intro x hx
  unfold serInt at hx
  have hdig : ∀ m, ∀ c ∈ natDigits m, c.toNat < 128 := by
    intro m c hc
    have h1 := (natDigits_spec m).1 c hc
    have h2 := isDig_bounds c h1
    omega
  split_ifs at hx
  · rcases List.mem_cons.1 hx with h | h
    · subst h; decide
    · exact hdig _ x h
  · exact hdig _ x hx

/-- Every character the serializer emits is ASCII (the `ensure_ascii`
behaviour). -/
lemma serJ_ascii : ∀ v, ∀ (m : JMode), ∀ c ∈ serJ m v, c.toNat < 128 := by
  intro v
  induction v with
  | null =>
    intro m c hc
    cases m <;> exact ascii_of_all _ (by decide) c hc
  | bool b =>
    intro m c hc
    cases m <;> cases b <;> exact ascii_of_all _ (by decide) c hc
  | num n =>
    intro m c hc
    cases m with
    | value => exact serInt_ascii n c hc
    | arrTail =>
      simp only [serJ, List.mem_singleton] at hc
      subst hc; decide
    | objTail =>
      simp only [serJ, List.mem_singleton] at hc
      subst hc; decide
  | str s =>
    intro m c hc
    cases m with
    | value =>
      simp only [serJ, List.mem_cons, List.mem_append, List.mem_singleton,
        List.not_mem_nil, or_false] at hc
      rcases hc with h | h | h
      · subst h; decide
      · exact escapeStr_ascii s c h
      · subst h; decide
    | arrTail =>
      simp only [serJ, List.mem_singleton] at hc
      subst hc; decide
    | objTail =>
      simp only [serJ, List.mem_singleton] at hc
      subst hc; decide
  | arrNil =>
    intro m c hc
    cases m <;> exact ascii_of_all _ (by decide) c hc
  | arrCons h t ihh iht =>
    intro m c hc
    cases m with
    | value =>
      simp only [serJ, List.mem_cons, List.mem_append] at hc
      rcases hc with h1 | h1 | h1
      · subst h1; decide
      · exact ihh .value c h1
      · exact iht .arrTail c h1
    | arrTail =>
      simp only [serJ, List.mem_cons, List.mem_append] at hc
      rcases hc with h1 | h1 | h1 | h1
      · subst h1; decide
      · subst h1; decide
      · exact ihh .value c h1
      · exact iht .arrTail c h1
    | objTail =>
      simp only [serJ, List.mem_singleton] at hc
      subst hc; decide
  | objNil =>
    intro m c hc
    cases m <;> exact ascii_of_all _ (by decide) c hc
  | objCons k x t ihx iht =>
    intro m c hc
    cases m with
    | value =>
      simp only [serJ, List.mem_cons, List.mem_append, List.mem_singleton,
        List.not_mem_nil, or_false] at hc
      rcases hc with h1 | h1 | h1 | h1 | h1 | h1 | (h2 | h2)
      · subst h1; decide
      · subst h1; decide
      · exact escapeStr_ascii k c h1
      · subst h1; decide
      · subst h1; decide
      · subst h1; decide
      · exact ihx .value c h2
      · exact iht .objTail c h2
    | arrTail =>
      simp only [serJ, List.mem_singleton] at hc
      subst hc; decide
    | objTail =>
      simp only [serJ, List.mem_cons, List.mem_append, List.mem_singleton,
        List.not_mem_nil, or_false] at hc
      rcases hc with h1 | h1 | h1 | h1 | h1 | h1 | h1 | (h2 | h2)
      · subst h1; decide
      · subst h1; decide
      · subst h1; decide
      · exact escapeStr_ascii k c h1
      · subst h1; decide
      · subst h1; decide
      · subst h1; decide
      · exact ihx .value c h2
      · exact iht .objTail c h2

/-- Decoding the byte encoding of ASCII text is the identity. -/
lemma asciiDecode_encode (cs : List Char) (h : ∀ c ∈ cs, c.toNat < 128) :
    asciiDecode (asciiEncode cs) = some cs := by
  induction cs with
  | nil => rfl
  | cons c cs ih =>
    have hc := h c (List.mem_cons_self _ _)
    have ht := ih (fun x hx => h x (List.mem_cons_of_mem _ hx))
    simp only [asciiEncode, List.map_cons, asciiDecode, List.mapM_cons] at ht ⊢
    rw [if_pos hc]
    simp only [Option.bind_eq_bind, Option.pure_def] at ht ⊢
    rw [show Char.ofNat c.toNat = c from charOfNat_toNat c]
    cases hm : (cs.map Char.toNat).mapM
        (fun b => if b < 128 then some (Char.ofNat b) else none) with
    | none => rw [hm] at ht; simp at ht
    | some l =>
      rw [hm] at ht
      simp only [Option.some_bind, Option.some.injEq] at ht
      simp [hm, ht]

lemma b64Val_b64Char : ∀ s, s < 64 → b64Val (b64Char s) = some s := by decide

lemma b64Char_ne_pad : ∀ s, s < 64 → ¬ b64Char s = '=' := by decide

/-- Base64 decoding inverts encoding on byte lists. -/
lemma b64_roundtrip : ∀ n bs, bs.length ≤ n → (∀ b ∈ bs, b < 256) →
    b64Decode (b64Encode bs) = some bs := by
  intro n
  induction n with
  | zero =>
    intro bs hl _
    have : bs = [] := List.length_eq_zero.1 (by omega)
    subst this
    rfl
  | succ n ih =>
    intro bs hl hb
    match bs with
    | [] => rfl
    | [a] =>
      have ha := hb a (by simp)
      have h1 := b64Val_b64Char (a / 4) (by omega)
      have h2 := b64Val_b64Char (a % 4 * 16) (by omega)
      have hp1 := b64Char_ne_pad (a / 4) (by omega)
      simp only [b64Encode, b64Decode, h1, h2, and_self, if_true, ite_true]
      simp only [Option.some.injEq, List.cons.injEq, and_true]
      omega
    | [a, b] =>
      have ha := hb a (by simp)
      have hbb := hb b (by simp)
      have h1 := b64Val_b64Char (a / 4) (by omega)
      have h2 := b64Val_b64Char (a % 4 * 16 + b / 16) (by omega)
      have h3 := b64Val_b64Char (b % 16 * 4) (by omega)
      have hp3 := b64Char_ne_pad (b % 16 * 4) (by omega)
      simp only [b64Encode, b64Decode, h1, h2, h3, hp3, and_self, if_true,
        ite_true, if_false, ite_false]
      simp only [Option.some.injEq, List.cons.injEq, and_true]
      constructor
      · omega
      · omega
    | a :: b :: c :: rest =>
      have ha := hb a (by simp)
      have hbb := hb b (by simp)
      have hc := hb c (by simp)
      have h1 := b64Val_b64Char (a / 4) (by omega)
      have h2 := b64Val_b64Char (a % 4 * 16 + b / 16) (by omega)
      have h3 := b64Val_b64Char (b % 16 * 4 + c / 64) (by omega)
      have h4 := b64Val_b64Char (c % 64) (by omega)
      have hp3 := b64Char_ne_pad (b % 16 * 4 + c / 64) (by omega)
      have hp4 := b64Char_ne_pad (c % 64) (by omega)
      have hrest := ih rest (by simp at hl; omega)
        (fun x hx => hb x (by simp [hx]))
      simp only [b64Encode, b64Decode, h1, h2, h3, h4, hp3, hp4, if_false,
        ite_false]
      rw [hrest]
      simp only [Option.map_some', Option.some.injEq, List.cons.injEq, and_true]
      refine ⟨by omega, by omega, by omega⟩

/-- Every byte of the stored-block stream fits in a byte. -/
lemma deflate_bytes_lt : ∀ f bs, (∀ b ∈ bs, b < 256) →
    ∀ b ∈ deflateStoreF f bs, b < 256 := by
  intro f
  induction f with
  | zero => intro bs _ b hbb; simp [deflateStoreF] at hbb
  | succ f ih =>
    intro bs hbs b hbb
    by_cases hle : bs.length ≤ 65535
    · simp only [deflateStoreF, hle, if_true, List.mem_cons] at hbb
      rcases hbb with h | h | h | h | h | h
      · omega
      · have := Nat.mod_lt bs.length (y := 256) (by norm_num); omega
      · have : bs.length / 256 ≤ 65535 / 256 := Nat.div_le_div_right hle; omega
      · have := Nat.mod_lt (65535 - bs.length) (y := 256) (by norm_num); omega
      · have : (65535 - bs.length) / 256 ≤ 65535 / 256 :=
          Nat.div_le_div_right (by omega); omega
      · exact hbs b h
    · simp only [deflateStoreF, hle, if_false, List.mem_cons,
        List.mem_append] at hbb
      rcases hbb with h | h | h | h | h | (h | h)
      · omega
      · omega
      · omega
      · omega
      · omega
      · exact hbs b (List.take_subset _ _ h)
      · exact ih (bs.drop 65535) (fun x hx => hbs x (List.drop_subset _ _ hx)) b h

/-- The stored-block stream is at least as long as its payload. -/
lemma deflate_len_ge : ∀ f bs, bs.length < f →
    bs.length ≤ (deflateStoreF f bs).length := by
  intro f
  induction f with
  | zero => intro bs h; omega
  | succ f ih =>
    intro bs h
    by_cases hle : bs.length ≤ 65535
    · simp only [deflateStoreF, hle, if_true, List.length_cons]
      omega
    · have hdrop : (bs.drop 65535).length < f := by
        simp only [List.length_drop]; omega
      have := ih (bs.drop 65535) hdrop
      simp only [deflateStoreF, hle, if_false, List.length_cons,
        List.length_append, List.length_take, List.length_drop] at this ⊢
      omega

/-- Inflating one final stored block returns exactly its payload. -/
lemma inflate_step_final (g : ℕ) (bs : List ℕ) (hle : bs.length ≤ 65535) :
    inflateStoreF (g + 1) (1 :: bs.length % 256 :: bs.length / 256 ::
      (65535 - bs.length) % 256 :: (65535 - bs.length) / 256 :: bs) = some bs := by
  have e1 : bs.length % 256 + 256 * (bs.length / 256) = bs.length := by
    have := Nat.div_add_mod bs.length 256
    omega
  have e2 : (65535 - bs.length) % 256 + 256 * ((65535 - bs.length) / 256)
      = 65535 - bs.length := by
    have := Nat.div_add_mod (65535 - bs.length) 256
    omega
  simp only [inflateStoreF, e1, e2]
  norm_num

/-- Inflating one non-final full stored block prepends its 65535-byte
payload to the rest of the stream's result. -/
lemma inflate_step_more (g : ℕ) (pre rest : List ℕ) (hpre : pre.length = 65535) :
    inflateStoreF (g + 1) (0 :: 255 :: 255 :: 0 :: 0 :: (pre ++ rest)) =
      (inflateStoreF g rest).map (fun tl => pre ++ tl) := by
  have hlen : (255 + 256 * 255 : ℕ) ≤ (pre ++ rest).length := by
    simp only [List.length_append, hpre]
    omega
  simp only [inflateStoreF]
  norm_num
  rw [if_pos (by omega : (65535 : ℕ) ≤ pre.length + rest.length)]
  rw [← hpre, List.drop_left, List.take_left]

/-- Inflating a stored-block stream recovers the payload, with fuel one
more than the number of blocks (bounded through the payload length). -/
lemma inflate_deflate : ∀ g f bs, bs.length < f → bs.length ≤ g * 65535 →
    inflateStoreF (g + 1) (deflateStoreF f bs) = some bs := by
  intro g
  induction g with
  | zero =>
    intro f bs hf hg
    have hnil : bs = [] := List.length_eq_zero.1 (by omega)
    subst hnil
    cases f with
    | zero => omega
    | succ f =>
      simp only [deflateStoreF, List.length_nil,
        if_pos (by omega : (0 : ℕ) ≤ 65535)]
      have := inflate_step_final 0 ([] : List ℕ) (by simp)
      simpa using this
  | succ g ih =>
    intro f bs hf hg
    cases f with
    | zero => omega
    | succ f =>
      by_cases hle : bs.length ≤ 65535
      · simp only [deflateStoreF, hle, if_true]
        exact inflate_step_final (g + 1) bs hle
      · have htk : (bs.take 65535).length = 65535 := by
          simp only [List.length_take]
          omega
        have hdlen : (bs.drop 65535).length < f := by
          simp only [List.length_drop]
          omega
        have hdg : (bs.drop 65535).length ≤ g * 65535 := by
          simp only [List.length_drop]
          have : (g + 1) * 65535 = g * 65535 + 65535 := by ring
          omega
        simp only [deflateStoreF, hle, if_false]
        rw [inflate_step_more (g + 1) (bs.take 65535)
          (deflateStoreF f (bs.drop 65535)) htk]
        rw [ih f (bs.drop 65535) hdlen hdg]
        simp only [Option.map_some', Option.some.injEq]
        exact List.take_append_drop 65535 bs

/-- Inflating the stored-block compression of any byte list returns the
original bytes. -/
lemma inflateStore_deflateStore (bs : List ℕ) :
    inflateStore (deflateStore bs) = some bs := by
  unfold inflateStore deflateStore
  have hlen := deflate_len_ge (bs.length + 1) bs (Nat.lt_succ_self _)
  have hbound : bs.length ≤ (deflateStoreF (bs.length + 1) bs).length * 65535 := by
    calc bs.length ≤ (deflateStoreF (bs.length + 1) bs).length := hlen
    _ ≤ (deflateStoreF (bs.length + 1) bs).length * 65535 :=
        Nat.le_mul_of_pos_right _ (by norm_num)
  exact inflate_deflate (deflateStoreF (bs.length + 1) bs).length
    (bs.length + 1) bs (Nat.lt_succ_self _) hbound

section ClaimTheorems

/-- C3 counterexample: at exactly 10 laps remaining the claim's bucket
labels (>20, 10–20, <10) select the middle table, whose position-1 entry is
0.75, but the code's `laps_remaining > 10` test places 10 laps in the late
bucket and returns 0.85. -/
theorem claim_C3_cex :
    position_baseline 1 10 20 = some (85/100) ∧
    position_baseline_claimBuckets 1 10 20 = some (75/100) ∧
    (85 / 100 : ℚ) ≠ 75 / 100 := by
  refine ⟨by norm_num [position_baseline, pyIndex],
    by norm_num [position_baseline_claimBuckets, pyIndex], by norm_num⟩

/-- C3 (amended): for every 1-based position the code's baseline equals the
amended table lookup (buckets >20, 11–20, ≤10 laps remaining, fixed minimal
weight 0.001 past the table end); in the late bucket position 1 receives the
table's 0.85 entry and position 2 its 0.10 entry. -/
theorem claim_C3 (p L : ℤ) (N : ℕ) (hp : 1 ≤ p) :
    position_baseline p L N = some (position_baseline_amended p L N) ∧
    (L ≤ 10 → position_baseline 1 L N = some (85/100) ∧
      position_baseline 2 L N = some (1/10)) := by
  constructor
  · unfold position_baseline position_baseline_amended
    by_cases h20 : 20 < L
    · simp only [h20, if_true]
      exact lookup_eq_getD _ p hp
    · by_cases h10 : 10 < L
      · simp only [h20, if_false, h10, if_true]
        exact lookup_eq_getD _ p hp
      · simp only [h20, if_false, h10, if_false]
        exact lookup_eq_getD _ p hp
  · intro hL
    have h20 : ¬ 20 < L := by omega
    have h10 : ¬ 10 < L := by omega
    constructor
    · show position_baseline 1 L N = some (85/100)
      unfold position_baseline
      simp only [h20, if_false, h10, if_false]
      rw [if_pos (by simp only [List.length_append, List.length_cons,
        List.length_nil, List.length_replicate]; push_cast; omega)]
      simp [pyIndex]
    · show position_baseline 2 L N = some (1/10)
      unfold position_baseline
      simp only [h20, if_false, h10, if_false]
      rw [if_pos (by simp only [List.length_append, List.length_cons,
        List.length_nil, List.length_replicate]; push_cast; omega)]
      norm_num [pyIndex]

/-- C3 witness: the amended equality and the late-bucket entries evaluated
at position 1 and 2 with 5 laps remaining in a 20-car field. -/
theorem claim_C3_witness :
    position_baseline 1 5 20 = some (position_baseline_amended 1 5 20) ∧
    position_baseline 1 5 20 = some (85/100) ∧
    position_baseline 2 5 20 = some (1/10) :=
  ⟨(claim_C3 1 5 20 (by decide)).1,
   ((claim_C3 1 5 20 (by decide)).2 (by decide)).1,
   ((claim_C3 1 5 20 (by decide)).2 (by decide)).2⟩

/-- C5 counterexample: a driver a full second per lap faster than the leader
but 100 seconds behind with 5 laps left cannot close within 90% of the
remaining laps, yet `pace_adjustment` still returns the strictly positive
residual 0.02 — so a positive adjustment is not returned only when closing
is feasible. -/
theorem claim_C5_cex :
    pace_adjustment ⟨"B", 2, 100, 89, "MEDIUM", 10⟩ ⟨"A", 1, 0, 90, "SOFT", 10⟩
      100 5 0 = 2/100 ∧
    (0 : ℚ) < 2/100 ∧
    ¬ (100 / ((90 : ℚ) - 89) < (5 : ℚ) * (9/10)) := by
  refine ⟨by norm_num [pace_adjustment, laps_to_catch_opt], by norm_num, by norm_num⟩

/-- C5 (amended): with the overtake difficulty in [0,1], the adjustment is
strictly positive exactly when the driver is more than 0.2 s/lap faster than
the leader; when the gap is additionally closable within 90% of the
remaining laps the adjustment is the difficulty-scaled 0.15·(1−difficulty/2)
or 0.08·(1−difficulty/2), and otherwise the small fixed residual 0.02 or
0.01; a deficit worse than 0.3 s/lap yields the fixed −0.10, anything in
between yields 0, and the adjustment never exceeds 0.15. -/
theorem claim_C5 (d l : DriverState) (gap : ℚ) (laps : ℤ) (diff : ℚ)
    (h0 : 0 ≤ diff) (h1 : diff ≤ 1) :
    (0 < pace_adjustment d l gap laps diff ↔
       1/5 < l.rolling_pace_5lap - d.rolling_pace_5lap) ∧
    (1/5 < l.rolling_pace_5lap - d.rolling_pace_5lap →
       gap / (l.rolling_pace_5lap - d.rolling_pace_5lap) < (laps : ℚ) * (9/10) →
       pace_adjustment d l gap laps diff =
         (if 1/2 < l.rolling_pace_5lap - d.rolling_pace_5lap then 15/100 else 8/100)
           * (1 - diff * (1/2))) ∧
    (1/5 < l.rolling_pace_5lap - d.rolling_pace_5lap →
       ¬ (gap / (l.rolling_pace_5lap - d.rolling_pace_5lap) < (laps : ℚ) * (9/10)) →
       pace_adjustment d l gap laps diff =
         (if 1/2 < l.rolling_pace_5lap - d.rolling_pace_5lap then 2/100 else 1/100)) ∧
    (l.rolling_pace_5lap - d.rolling_pace_5lap < -(3/10) →
       pace_adjustment d l gap laps diff = -(1/10)) ∧
    (-(3/10) ≤ l.rolling_pace_5lap - d.rolling_pace_5lap →
       l.rolling_pace_5lap - d.rolling_pace_5lap ≤ 1/5 →
       pace_adjustment d l gap laps diff = 0) ∧
    pace_adjustment d l gap laps diff ≤ 15/100 := by
  have hof1 : (1 : ℚ) - diff * (1/2) ≤ 1 := by linarith
  have hof2 : (1 : ℚ)/2 ≤ 1 - diff * (1/2) := by linarith
  rw [pace_adjustment_eq]
  by_cases h5 : (1 : ℚ)/2 < l.rolling_pace_5lap - d.rolling_pace_5lap
  · have hpos : (0 : ℚ) < l.rolling_pace_5lap - d.rolling_pace_5lap := by linarith
    have h2 : (1 : ℚ)/5 < l.rolling_pace_5lap - d.rolling_pace_5lap := by linarith
    by_cases hc : gap / (l.rolling_pace_5lap - d.rolling_pace_5lap) <
        (laps : ℚ) * (9/10)
    · rw [if_pos h5, if_pos ⟨hpos, hc⟩]
      refine ⟨⟨fun _ => h2, fun _ => by nlinarith⟩, fun _ _ => by rw [if_pos h5],
        fun _ hnc => absurd hc hnc, fun hx => absurd hx (by linarith),
        fun _ hx => absurd hx (by linarith), by nlinarith⟩
    · rw [if_pos h5, if_neg (by rintro ⟨_, hcc⟩; exact hc hcc)]
      refine ⟨⟨fun _ => h2, fun _ => by norm_num⟩, fun _ hcc => absurd hcc hc,
        fun _ _ => by rw [if_pos h5], fun hx => absurd hx (by linarith),
        fun _ hx => absurd hx (by linarith), by norm_num⟩
  · by_cases h2 : (1 : ℚ)/5 < l.rolling_pace_5lap - d.rolling_pace_5lap
    · have hpos : (0 : ℚ) < l.rolling_pace_5lap - d.rolling_pace_5lap := by linarith
      by_cases hc : gap / (l.rolling_pace_5lap - d.rolling_pace_5lap) <
          (laps : ℚ) * (9/10)
      · rw [if_neg h5, if_pos h2, if_pos ⟨hpos, hc⟩]
        refine ⟨⟨fun _ => h2, fun _ => by nlinarith⟩, fun _ _ => by rw [if_neg h5],
          fun _ hnc => absurd hc hnc, fun hx => absurd hx (by linarith),
          fun _ hx => absurd hx (by linarith), by nlinarith⟩
      · rw [if_neg h5, if_pos h2, if_neg (by rintro ⟨_, hcc⟩; exact hc hcc)]
        refine ⟨⟨fun _ => h2, fun _ => by norm_num⟩, fun _ hcc => absurd hcc hc,
          fun _ _ => by rw [if_neg h5], fun hx => absurd hx (by linarith),
          fun _ hx => absurd hx (by linarith), by norm_num⟩
    · by_cases hneg : l.rolling_pace_5lap - d.rolling_pace_5lap < -(3/10)
      · rw [if_neg h5, if_neg h2, if_pos hneg]
        refine ⟨⟨fun hx => absurd hx (by norm_num), fun hx => absurd hx h2⟩,
          fun hx => absurd hx h2, fun hx => absurd hx h2,
          fun _ => rfl, fun hge _ => absurd hneg (by linarith), by norm_num⟩
      · rw [if_neg h5, if_neg h2, if_neg hneg]
        refine ⟨⟨fun hx => absurd hx (by norm_num), fun hx => absurd hx h2⟩,
          fun hx => absurd hx h2, fun hx => absurd hx h2,
          fun hx => absurd hx hneg, fun _ _ => rfl, by norm_num⟩

/-- C5 witness: the amended characterization evaluated for a driver
0.3 s/lap faster than the leader, 2 s behind, 20 laps left, difficulty 0.5. -/
theorem claim_C5_witness :
    (0 < pace_adjustment ⟨"B", 2, 2, 897/10, "SOFT", 3⟩
        ⟨"A", 1, 0, 90, "SOFT", 12⟩ 2 20 (1/2) ↔
      (1/5 : ℚ) < 90 - 897/10) ∧
    pace_adjustment ⟨"B", 2, 2, 897/10, "SOFT", 3⟩
        ⟨"A", 1, 0, 90, "SOFT", 12⟩ 2 20 (1/2) ≤ 15/100 := by
  have h := claim_C5 ⟨"B", 2, 2, 897/10, "SOFT", 3⟩ ⟨"A", 1, 0, 90, "SOFT", 12⟩
    2 20 (1/2) (by norm_num) (by norm_num)
  exact ⟨h.1, h.2.2.2.2.2⟩

/-- C10: the division `gap_to_leader / pace_delta` in `pace_adjustment` is
guarded by `pace_delta > 0`; for a zero or negative pace delta the
laps-to-catch value is `none` (the code's infinity), catching is judged
impossible, and the result is the deficit branch or zero. -/
theorem claim_C10 (d l : DriverState) (gap : ℚ) (laps : ℤ) (diff : ℚ)
    (h : l.rolling_pace_5lap - d.rolling_pace_5lap ≤ 0) :
    laps_to_catch_opt gap (l.rolling_pace_5lap - d.rolling_pace_5lap) = none ∧
    pace_adjustment d l gap laps diff =
      (if l.rolling_pace_5lap - d.rolling_pace_5lap < -(3/10) then -(1/10) else 0) := by
  have hnpos : ¬ (0 : ℚ) < l.rolling_pace_5lap - d.rolling_pace_5lap := by linarith
  have h5 : ¬ (1 : ℚ)/2 < l.rolling_pace_5lap - d.rolling_pace_5lap := by linarith
  have h2 : ¬ (1 : ℚ)/5 < l.rolling_pace_5lap - d.rolling_pace_5lap := by linarith
  constructor
  · simp [laps_to_catch_opt, hnpos]
  · rw [pace_adjustment_eq, if_neg h5, if_neg h2]

/-- C10 witness: a driver matching the leader's pace gets laps-to-catch
`none` and adjustment 0. -/
theorem claim_C10_witness :
    laps_to_catch_opt 3 ((90 : ℚ) - 90) = none ∧
    pace_adjustment ⟨"B", 2, 3, 90, "SOFT", 3⟩ ⟨"A", 1, 0, 90, "SOFT", 3⟩
      3 20 (1/2) = (if (90 : ℚ) - 90 < -(3/10) then -(1/10) else 0) :=
  claim_C10 ⟨"B", 2, 3, 90, "SOFT", 3⟩ ⟨"A", 1, 0, 90, "SOFT", 3⟩ 3 20 (1/2)
    (by norm_num)

/-- C6: under the caution-type flag states SC, VSC, YELLOW the leader's
adjustment is the fixed −0.10, positions 2–5 receive a positive adjustment
0.05 + (5 − position)·0.02 that strictly decays as position increases, and
every later position receives the flat 0.02; under any other flag state the
adjustment is exactly 0; and for the entrant in position 1 a green-to-SC
flag transition with everything else fixed shifts the raw ensemble score by
exactly −0.10. -/
theorem claim_C6 (d : DriverState) (flag : String) (g : ℚ) (L : ℤ)
    (race : RaceState) (a : List DriverState) (t : TrackConfig) :
    ((flag = "SC" ∨ flag = "VSC" ∨ flag = "YELLOW") →
       (d.position = 1 → safety_car_adjustment d flag g L = -(1/10)) ∧
       (2 ≤ d.position → d.position ≤ 5 →
          safety_car_adjustment d flag g L =
            5/100 + ((5 - d.position : ℤ) : ℚ) * (2/100) ∧
          0 < safety_car_adjustment d flag g L) ∧
       (5 < d.position → safety_car_adjustment d flag g L = 2/100) ∧
       (∀ p q : ℤ, 2 ≤ p → p < q → q ≤ 5 →
          safety_car_adjustment { d with position := q } flag g L <
          safety_car_adjustment { d with position := p } flag g L)) ∧
    (¬ (flag = "SC" ∨ flag = "VSC" ∨ flag = "YELLOW") →
       safety_car_adjustment d flag g L = 0) ∧
    (d.position = 1 →
       raw_prediction_score d { race with flag_status := "SC" } a t =
       Option.map (fun x => x - 1/10)
         (raw_prediction_score d { race with flag_status := "GREEN" } a t)) := by
  obtain ⟨cl, tl, prog, oldflag⟩ := race
  refine ⟨?_, ?_, ?_⟩
  · intro hf
    have hmem : flag ∈ (["SC", "VSC", "YELLOW"] : List String) := by
      rcases hf with h | h | h <;> simp [h]
    refine ⟨?_, ?_, ?_, ?_⟩
    · intro h1
      unfold safety_car_adjustment
      rw [if_neg (not_not_intro hmem), if_pos h1]
    · intro h2 h5
      have hcast : (0 : ℚ) ≤ ((5 - d.position : ℤ) : ℚ) := by
        exact_mod_cast (by omega : (0 : ℤ) ≤ 5 - d.position)
      unfold safety_car_adjustment
      rw [if_neg (not_not_intro hmem), if_neg (by omega), if_pos h5]
      refine ⟨rfl, ?_⟩
      have hprod : (0 : ℚ) ≤ ((5 - d.position : ℤ) : ℚ) * (2/100) :=
        mul_nonneg hcast (by norm_num)
      linarith
    · intro h6
      unfold safety_car_adjustment
      rw [if_neg (not_not_intro hmem), if_neg (by omega), if_neg (by omega)]
    · intro p q hp hpq hq5
      have hcast : ((5 - q : ℤ) : ℚ) < ((5 - p : ℤ) : ℚ) := by
        exact_mod_cast (by omega : (5 - q : ℤ) < 5 - p)
      unfold safety_car_adjustment
      rw [if_neg (not_not_intro hmem), if_neg (not_not_intro hmem)]
      simp only
      rw [if_neg (by omega), if_pos (by omega), if_neg (by omega), if_pos (by omega)]
      linarith
  · intro hf
    have hnm : flag ∉ (["SC", "VSC", "YELLOW"] : List String) := by
      simp only [List.mem_cons, List.mem_singleton, List.not_mem_nil, or_false]
      tauto
    unfold safety_car_adjustment
    rw [if_pos hnm]
  · intro hpos
    unfold raw_prediction_score
    cases hb : position_baseline d.position (tl - cl) a.length with
    | none => simp only [hb]; rfl
    | some b =>
      simp only [hb]
      cases a with
      | nil => rfl
      | cons leader rest =>
        cases hs : strategy_projection d (leader :: rest) (tl - cl)
            t.pit_time_loss with
        | none => simp only [hs]; rfl
        | some pr =>
          obtain ⟨sa, reason⟩ := pr
          simp only [hs]
          have hsc : safety_car_adjustment d "SC" d.gap_to_leader (tl - cl)
              = -(1/10) := by
            unfold safety_car_adjustment
            rw [if_neg (not_not_intro (by simp)), if_pos hpos]
          have hgr : safety_car_adjustment d "GREEN" d.gap_to_leader (tl - cl)
              = 0 := by
            unfold safety_car_adjustment
            rw [if_pos (by simp)]
          simp only [hsc, hgr, Option.map_some]
          congr 1
          ring

/-- C6 witness: evaluated for a leader under a safety car (and the raw-score
transition) on a one-car field. -/
theorem claim_C6_witness :
    safety_car_adjustment ⟨"W6", 1, 0, 90, "SOFT", 3⟩ "SC" 0 5 = -(1/10) ∧
    safety_car_adjustment ⟨"W6", 1, 0, 90, "SOFT", 3⟩ "GREEN" 0 5 = 0 ∧
    raw_prediction_score ⟨"W6", 1, 0, 90, "SOFT", 3⟩
        ({ (⟨45, 50, 1/2, "GREEN"⟩ : RaceState) with flag_status := "SC" })
        [⟨"W6", 1, 0, 90, "SOFT", 3⟩] ⟨1/2, 22⟩ =
      Option.map (fun x => x - 1/10)
        (raw_prediction_score ⟨"W6", 1, 0, 90, "SOFT", 3⟩
          ({ (⟨45, 50, 1/2, "GREEN"⟩ : RaceState) with flag_status := "GREEN" })
          [⟨"W6", 1, 0, 90, "SOFT", 3⟩] ⟨1/2, 22⟩) := by
  have h := claim_C6 ⟨"W6", 1, 0, 90, "SOFT", 3⟩ "SC" 0 5
    ⟨45, 50, 1/2, "GREEN"⟩ [⟨"W6", 1, 0, 90, "SOFT", 3⟩] ⟨1/2, 22⟩
  have h2 := claim_C6 ⟨"W6", 1, 0, 90, "SOFT", 3⟩ "GREEN" 0 5
    ⟨45, 50, 1/2, "GREEN"⟩ [⟨"W6", 1, 0, 90, "SOFT", 3⟩] ⟨1/2, 22⟩
  exact ⟨(h.1 (Or.inl rfl)).1 rfl, h2.2.1 (by simp), h.2.2 rfl⟩

/-- C7 counterexample: the driver at P2 is on MEDIUM tires while the leader
is on SOFT tires 15 laps older (materially older, softer compound), no car
sits behind with fresher tires, yet `strategy_projection` returns the zero
adjustment "Strategy neutral" — not a positive overcut adjustment — because
the code additionally requires the driver itself to be on HARD tires. -/
theorem claim_C7_cex :
    strategy_projection ⟨"B", 2, 3, 90, "MEDIUM", 5⟩
      [⟨"A", 1, 0, 90, "SOFT", 20⟩, ⟨"B", 2, 3, 90, "MEDIUM", 5⟩] 20 22
      = some (0, "Strategy neutral") ∧
    (15 : ℤ) < 20 ∧ (1 : ℤ) < 2 ∧ (5 : ℤ) < 20 := by
  refine ⟨?_, by decide, by decide, by decide⟩
  rfl

/-- C7 (amended): `strategy_projection` always succeeds on a nonempty
competitor list; the adjustment is negative exactly when some competitor
directly behind carries tires more than 5 laps fresher (then it is −0.05
with the undercut explanation naming that position), positive exactly when
no such competitor exists, the driver is on HARD tires behind the leader,
and the leader is on SOFT or MEDIUM tires older than 15 laps (then it is
+0.05 with the overcut explanation), and zero with the neutral explanation
otherwise. -/
theorem claim_C7 (d c0 : DriverState) (rest : List DriverState) (L : ℤ) (pit : ℚ) :
    ∃ adj reason,
      strategy_projection d (c0 :: rest) L pit = some (adj, reason) ∧
      (adj < 0 ↔ ∃ c ∈ c0 :: rest, c.position = d.position + 1 ∧
         c.tire_age_laps < d.tire_age_laps - 5) ∧
      (0 < adj ↔ (¬ ∃ c ∈ c0 :: rest, c.position = d.position + 1 ∧
           c.tire_age_laps < d.tire_age_laps - 5) ∧
         d.tire_compound = "HARD" ∧ 1 < d.position ∧
         (c0.tire_compound = "SOFT" ∨ c0.tire_compound = "MEDIUM") ∧
         15 < c0.tire_age_laps) ∧
      (adj < 0 → adj = -(5/100) ∧
         reason = "Undercut vulnerable to P" ++ toString (d.position + 1)) ∧
      (0 < adj → adj = 5/100 ∧
         reason = "Overcut potential as leader on worn tires") ∧
      (adj = 0 → reason = "Strategy neutral") := by
  cases hf : (c0 :: rest).find? (fun c =>
      decide (c.position = d.position + 1) &&
      decide (c.tire_age_laps < d.tire_age_laps - 5)) with
  | some c =>
    have hc := List.find?_some hf
    have hmem := List.mem_of_find?_eq_some hf
    simp only [Bool.and_eq_true, decide_eq_true_eq] at hc
    refine ⟨-(5/100), "Undercut vulnerable to P" ++ toString c.position,
      by simp only [strategy_projection, hf], ?_, ?_, ?_, ?_, ?_⟩
    · exact ⟨fun _ => ⟨c, hmem, hc⟩, fun _ => by norm_num⟩
    · constructor
      · intro h; norm_num at h
      · rintro ⟨hno, _⟩; exact absurd ⟨c, hmem, hc⟩ hno
    · intro _; exact ⟨rfl, by rw [hc.1]⟩
    · intro h; norm_num at h
    · intro h; norm_num at h
  | none =>
    have hnone : ∀ x ∈ c0 :: rest, ¬ (x.position = d.position + 1 ∧
        x.tire_age_laps < d.tire_age_laps - 5) := by
      intro x hx hcon
      have := List.find?_eq_none.1 hf x hx
      simp only [Bool.and_eq_true, decide_eq_true_eq] at this
      exact this hcon
    have hnoex : ¬ ∃ c ∈ c0 :: rest, c.position = d.position + 1 ∧
        c.tire_age_laps < d.tire_age_laps - 5 := by
      rintro ⟨c, hc1, hc2⟩; exact hnone c hc1 hc2
    by_cases hhard : d.tire_compound = "HARD" ∧ 1 < d.position
    · by_cases hlead : (c0.tire_compound = "SOFT" ∨ c0.tire_compound = "MEDIUM")
          ∧ 15 < c0.tire_age_laps
      · refine ⟨5/100, "Overcut potential as leader on worn tires",
          by simp only [strategy_projection, hf]; rw [if_pos hhard, if_pos hlead],
          ?_, ?_, ?_, ?_, ?_⟩
        · constructor
          · intro h; norm_num at h
          · rintro ⟨cc, hc1, hc2⟩; exact absurd hc2 (hnone cc hc1)
        · exact ⟨fun _ => ⟨hnoex, hhard.1, hhard.2, hlead.1, hlead.2⟩,
            fun _ => by norm_num⟩
        · intro h; norm_num at h
        · intro _; exact ⟨rfl, rfl⟩
        · intro h; norm_num at h
      · refine ⟨0, "Strategy neutral",
          by simp only [strategy_projection, hf]; rw [if_pos hhard, if_neg hlead],
          ?_, ?_, ?_, ?_, ?_⟩
        · constructor
          · intro h; norm_num at h
          · rintro ⟨cc, hc1, hc2⟩; exact absurd hc2 (hnone cc hc1)
        · constructor
          · intro h; norm_num at h
          · rintro ⟨_, _, _, hl1, hl2⟩; exact absurd ⟨hl1, hl2⟩ hlead
        · intro h; norm_num at h
        · intro h; norm_num at h
        · intro _; rfl
    · refine ⟨0, "Strategy neutral",
        by simp only [strategy_projection, hf]; rw [if_neg hhard], ?_, ?_, ?_, ?_, ?_⟩
      · constructor
        · intro h; norm_num at h
        · rintro ⟨cc, hc1, hc2⟩; exact absurd hc2 (hnone cc hc1)
      · constructor
        · intro h; norm_num at h
        · rintro ⟨_, hh1, hh2, _⟩; exact absurd ⟨hh1, hh2⟩ hhard
      · intro h; norm_num at h
      · intro h; norm_num at h
      · intro _; rfl

/-- C7 witness: the characterization applied to a two-car field with an
undercut threat behind the driver. -/
theorem claim_C7_witness :
    ∃ adj reason,
      strategy_projection ⟨"W7", 1, 0, 90, "MEDIUM", 20⟩
        [⟨"W7", 1, 0, 90, "MEDIUM", 20⟩, ⟨"X7", 2, 2, 90, "SOFT", 2⟩] 15 22
        = some (adj, reason) ∧
      (adj < 0 ↔ ∃ c ∈ [(⟨"W7", 1, 0, 90, "MEDIUM", 20⟩ : DriverState),
          ⟨"X7", 2, 2, 90, "SOFT", 2⟩], c.position = 1 + 1 ∧
          c.tire_age_laps < 20 - 5) ∧
      (adj < 0 → adj = -(5/100) ∧
         reason = "Undercut vulnerable to P" ++ toString ((1 : ℤ) + 1)) :=
  match claim_C7 ⟨"W7", 1, 0, 90, "MEDIUM", 20⟩ ⟨"W7", 1, 0, 90, "MEDIUM", 20⟩
      [⟨"X7", 2, 2, 90, "SOFT", 2⟩] 15 22 with
  | ⟨adj, reason, h1, h2, _, h4, _, _⟩ => ⟨adj, reason, h1, h2, h4⟩

/-- C2: the prediction computation is deterministic — equal driver state,
race state, driver list, leader and track configuration give equal results
from `compute_win_probability` and from each of the four component
functions. -/
theorem claim_C2 (d1 d2 l1 l2 : DriverState) (r1 r2 : RaceState)
    (a1 a2 : List DriverState) (t1 t2 : TrackConfig)
    (hd : d1 = d2) (hl : l1 = l2) (hr : r1 = r2) (ha : a1 = a2) (ht : t1 = t2) :
    compute_win_probability d1 r1 a1 t1 = compute_win_probability d2 r2 a2 t2 ∧
    position_baseline d1.position (r1.total_laps - r1.current_lap) a1.length
      = position_baseline d2.position (r2.total_laps - r2.current_lap) a2.length ∧
    pace_adjustment d1 l1 d1.gap_to_leader (r1.total_laps - r1.current_lap)
        t1.overtake_difficulty
      = pace_adjustment d2 l2 d2.gap_to_leader (r2.total_laps - r2.current_lap)
        t2.overtake_difficulty ∧
    strategy_projection d1 a1 (r1.total_laps - r1.current_lap) t1.pit_time_loss
      = strategy_projection d2 a2 (r2.total_laps - r2.current_lap) t2.pit_time_loss ∧
    safety_car_adjustment d1 r1.flag_status d1.gap_to_leader
        (r1.total_laps - r1.current_lap)
      = safety_car_adjustment d2 r2.flag_status d2.gap_to_leader
        (r2.total_laps - r2.current_lap) := by
  subst hd hl hr ha ht
  exact ⟨rfl, rfl, rfl, rfl, rfl⟩

/-- C2 witness: determinism instantiated at a concrete snapshot. -/
theorem claim_C2_witness :
    compute_win_probability ⟨"W2", 1, 0, 90, "SOFT", 3⟩ ⟨40, 50, 4/5, "GREEN"⟩
        [⟨"W2", 1, 0, 90, "SOFT", 3⟩] ⟨1/2, 22⟩
      = compute_win_probability ⟨"W2", 1, 0, 90, "SOFT", 3⟩ ⟨40, 50, 4/5, "GREEN"⟩
        [⟨"W2", 1, 0, 90, "SOFT", 3⟩] ⟨1/2, 22⟩ :=
  (claim_C2 ⟨"W2", 1, 0, 90, "SOFT", 3⟩ ⟨"W2", 1, 0, 90, "SOFT", 3⟩
    ⟨"W2", 1, 0, 90, "SOFT", 3⟩ ⟨"W2", 1, 0, 90, "SOFT", 3⟩
    ⟨40, 50, 4/5, "GREEN"⟩ ⟨40, 50, 4/5, "GREEN"⟩
    [⟨"W2", 1, 0, 90, "SOFT", 3⟩] [⟨"W2", 1, 0, 90, "SOFT", 3⟩]
    ⟨1/2, 22⟩ ⟨1/2, 22⟩ rfl rfl rfl rfl rfl).1

/-- C1: whenever `compute_win_probability` returns a result, its win
probability is exactly the sum of the four ensemble components — position
baseline, pace adjustment, strategy projection, safety-car adjustment —
clamped to [0.001, 0.99], with no cross-field normalization, and therefore
always lies in [0.001, 0.99]. -/
theorem claim_C1 (d : DriverState) (r : RaceState) (leader : DriverState)
    (rest : List DriverState) (t : TrackConfig) (res : PredictionResult)
    (h : compute_win_probability d r (leader :: rest) t = some res) :
    (∃ b sa reason,
      position_baseline d.position (r.total_laps - r.current_lap)
        (leader :: rest).length = some b ∧
      strategy_projection d (leader :: rest) (r.total_laps - r.current_lap)
        t.pit_time_loss = some (sa, reason) ∧
      res.win_probability = max (1/1000) (min (99/100)
        (b + pace_adjustment d leader d.gap_to_leader
            (r.total_laps - r.current_lap) t.overtake_difficulty
          + sa + safety_car_adjustment d r.flag_status d.gap_to_leader
            (r.total_laps - r.current_lap)))) ∧
    1/1000 ≤ res.win_probability ∧ res.win_probability ≤ 99/100 := by
  simp only [compute_win_probability] at h
  cases hb : position_baseline d.position (r.total_laps - r.current_lap)
      (leader :: rest).length with
  | none => rw [hb] at h; simp at h
  | some b =>
    rw [hb] at h
    cases hs : strategy_projection d (leader :: rest) (r.total_laps - r.current_lap)
        t.pit_time_loss with
    | none => rw [hs] at h; simp at h
    | some pr =>
      obtain ⟨sa, reason⟩ := pr
      rw [hs] at h
      simp only [Option.some.injEq] at h
      rw [← h]
      refine ⟨⟨b, sa, reason, rfl, rfl, rfl⟩, le_max_left _ _,
        max_le (by norm_num) (min_le_left _ _)⟩

/-- C1 witness: the component decomposition and the clamp bounds at a
concrete one-car snapshot. -/
theorem claim_C1_witness :
    (∃ b sa reason,
      position_baseline 1 (50 - 45) 1 = some b ∧
      strategy_projection ⟨"W1", 1, 0, 90, "MEDIUM", 5⟩
        [⟨"W1", 1, 0, 90, "MEDIUM", 5⟩] (50 - 45) 22 = some (sa, reason) ∧
      (17/20 : ℚ) = max (1/1000) (min (99/100)
        (b + pace_adjustment ⟨"W1", 1, 0, 90, "MEDIUM", 5⟩
            ⟨"W1", 1, 0, 90, "MEDIUM", 5⟩ 0 (50 - 45) (1/2)
          + sa + safety_car_adjustment ⟨"W1", 1, 0, 90, "MEDIUM", 5⟩ "GREEN"
            0 (50 - 45)))) ∧
    (1/1000 : ℚ) ≤ 17/20 ∧ (17/20 : ℚ) ≤ 99/100 := by
  have h : compute_win_probability ⟨"W1", 1, 0, 90, "MEDIUM", 5⟩
      ⟨45, 50, 1/2, "GREEN"⟩ [⟨"W1", 1, 0, 90, "MEDIUM", 5⟩] ⟨1/2, 22⟩ =
      some ⟨"W1", 17/20, (27/40, 1),
        [some "Position: P1", some "Pace: +0.0% adjustment", none, none]⟩ := by
    norm_num [compute_win_probability, position_baseline, pyIndex, pace_adjustment,
      laps_to_catch_opt, strategy_projection, safety_car_adjustment,
      pythonPercentFmt, roundHalfEven,
      (show ¬("GREEN" : String) = "SC" by decide),
      (show ¬("GREEN" : String) = "VSC" by decide),
      (show ¬("GREEN" : String) = "YELLOW" by decide),
      (show "Position: P" ++ toString (1 : ℤ) = "Position: P1" by rfl),
      (show "+" ++ toString (0 : ℕ) ++ "." ++ toString (0 : ℕ) ++ "%" = "+0.0%"
        by rfl)]
    rfl
  exact claim_C1 ⟨"W1", 1, 0, 90, "MEDIUM", 5⟩ ⟨45, 50, 1/2, "GREEN"⟩
    ⟨"W1", 1, 0, 90, "MEDIUM", 5⟩ [] ⟨1/2, 22⟩
    ⟨"W1", 17/20, (27/40, 1),
      [some "Position: P1", some "Pace: +0.0% adjustment", none, none]⟩ h

/-- C4: all else equal, the standalone confidence-interval width strictly
decreases as race progress rises on [0.1, 0.9]; the interval is the base
probability plus/minus half the width progress + staleness + missing-data
+ floor; the staleness factor is capped at 0.10; the width is still
strictly positive at 100% race completion; and for a base probability in
[0,1] both interval bounds land in [0,1]. -/
theorem claim_C4 (b p1 p2 s b2 : ℚ) (h : Bool)
    (hp1 : 1/10 ≤ p1) (hlt : p1 < p2) (hp2 : p2 ≤ 9/10) (hs : 0 ≤ s) :
    ci_total_width p2 s h < ci_total_width p1 s h ∧
    confidence_interval b p1 s h =
      (max 0 (b - ci_total_width p1 s h / 2),
       min 1 (b + ci_total_width p1 s h / 2)) ∧
    staleness_factor_fn s ≤ 1/10 ∧
    0 < ci_total_width 1 s h ∧
    (0 ≤ b2 → b2 ≤ 1 →
      0 ≤ (confidence_interval b2 p1 s h).1 ∧
      (confidence_interval b2 p1 s h).1 ≤ 1 ∧
      0 ≤ (confidence_interval b2 p1 s h).2 ∧
      (confidence_interval b2 p1 s h).2 ≤ 1) := by
  have hsf0 : 0 ≤ staleness_factor_fn s := by
    unfold staleness_factor_fn
    exact le_min (by norm_num) (by positivity)
  have hsf1 : staleness_factor_fn s ≤ 1/10 := min_le_left _ _
  have hpit0 : 0 ≤ (if h then (0 : ℚ) else 5/100) := by
    cases h <;> norm_num
  refine ⟨?_, rfl, hsf1, ?_, ?_⟩
  · unfold ci_total_width
    linarith
  · unfold ci_total_width
    have h30 : (30 : ℚ)/100 * (1 - 1) = 0 := by ring
    rw [h30]
    linarith
  · intro hb0 hb1
    have hw0 : 0 < ci_total_width p1 s h := by
      unfold ci_total_width
      have hprog : 0 ≤ (30 : ℚ)/100 * (1 - p1) := by nlinarith
      linarith
    unfold confidence_interval
    refine ⟨le_max_left 0 _, max_le (by norm_num) (by linarith),
      le_min (by norm_num) (by linarith), min_le_left 1 _⟩

/-- C4 witness: the width comparison, interval formula, staleness cap,
positive floor and bound clamping at progress 0.1 vs 0.9 with 30 s stale
data and missing pit data. -/
theorem claim_C4_witness :
    ci_total_width (9/10) 30 false < ci_total_width (1/10) 30 false ∧
    confidence_interval (1/2) (1/10) 30 false =
      (max 0 (1/2 - ci_total_width (1/10) 30 false / 2),
       min 1 (1/2 + ci_total_width (1/10) 30 false / 2)) ∧
    staleness_factor_fn 30 ≤ 1/10 ∧
    0 < ci_total_width 1 30 false ∧
    (0 ≤ (confidence_interval (1/2) (1/10) 30 false).1 ∧
     (confidence_interval (1/2) (1/10) 30 false).1 ≤ 1 ∧
     0 ≤ (confidence_interval (1/2) (1/10) 30 false).2 ∧
     (confidence_interval (1/2) (1/10) 30 false).2 ≤ 1) := by
  have h := claim_C4 (1/2) (1/10) (9/10) 30 (1/2) false
    (by norm_num) (by norm_num) (by norm_num) (by norm_num)
  exact ⟨h.1, h.2.1, h.2.2.1, h.2.2.2.1, h.2.2.2.2 (by norm_num) (by norm_num)⟩

/-- C9: the `key_factors` list built by `compute_win_probability` contains
`None` placeholder entries whenever the strategy and safety-car adjustments
are zero — the code puts `strat_reason if strat_adj != 0 else None` (and the
analogous SC entry) straight into the list without filtering, contradicting
the spec's "ordered list of human-readable factor strings". -/
theorem claim_C9_bug :
    ∃ res, compute_win_probability ⟨"V9", 1, 0, 90, "MEDIUM", 5⟩
        ⟨45, 50, 1/2, "GREEN"⟩ [⟨"V9", 1, 0, 90, "MEDIUM", 5⟩] ⟨1/2, 22⟩
      = some res ∧ none ∈ res.key_factors := by
  refine ⟨⟨"V9", 17/20, (27/40, 1),
      [some "Position: P1", some "Pace: +0.0% adjustment", none, none]⟩, ?_, ?_⟩
  · norm_num [compute_win_probability, position_baseline, pyIndex, pace_adjustment,
      laps_to_catch_opt, strategy_projection, safety_car_adjustment,
      pythonPercentFmt, roundHalfEven,
      (show ¬("GREEN" : String) = "SC" by decide),
      (show ¬("GREEN" : String) = "VSC" by decide),
      (show ¬("GREEN" : String) = "YELLOW" by decide),
      (show "Position: P" ++ toString (1 : ℤ) = "Position: P1" by rfl),
      (show "+" ++ toString (0 : ℕ) ++ "." ++ toString (0 : ℕ) ++ "%" = "+0.0%"
        by rfl)]
    rfl
  · simp

/-- C8: decompression of `.z` payloads is a left inverse of compression —
for every well-formed JSON value, base64-decoding the compressed payload,
raw-inflating it, and parsing the decoded text returns exactly the original
value. -/
theorem claim_C8 (v : Json) (hwf : wfJson v = true) :
    decompress (zPayloadCompress v) = some v := by
  unfold zPayloadCompress decompress
  have hascii := serJ_ascii v .value
  have hbytes : ∀ b ∈ asciiEncode (serJ .value v), b < 256 := by
    intro b hbb
    obtain ⟨c, hc, rfl⟩ := List.mem_map.1 hbb
    have := hascii c hc
    omega
  have hb64 := b64_roundtrip (deflateStore (asciiEncode (serJ .value v))).length
    (deflateStore (asciiEncode (serJ .value v))) le_rfl
    (by unfold deflateStore; exact deflate_bytes_lt _ _ hbytes)
  simp only [hb64]
  simp only [inflateStore_deflateStore (asciiEncode (serJ .value v))]
  simp only [asciiDecode_encode (serJ .value v) hascii]
  have hsz : jsize v ≤ (serJ .value v).length + 1 :=
    le_trans (jsize_le_len v hwf).1 (Nat.le_succ _)
  have hp := (parseJ_serJ ((serJ .value v).length + 1) v [] hsz hwf).1
    (fun c cs h => nomatch h)
  rw [List.append_nil] at hp
  simp only [hp]

/-- C8 witness: the roundtrip evaluated on a concrete object holding an
array of a number and a string. -/
theorem claim_C8_witness :
    decompress (zPayloadCompress (Json.objCons ['T']
      (Json.arrCons (Json.num 44) (Json.arrCons (Json.str ['x']) Json.arrNil))
      Json.objNil)) = some (Json.objCons ['T']
      (Json.arrCons (Json.num 44) (Json.arrCons (Json.str ['x']) Json.arrNil))
      Json.objNil) :=
  claim_C8 (Json.objCons ['T']
    (Json.arrCons (Json.num 44) (Json.arrCons (Json.str ['x']) Json.arrNil))
    Json.objNil) (by decide)

end ClaimTheorems

end GridView
